import Mathlib

/-!
Verification of the AST data model and JSON wire-format contract of
`src/wasm-lib/src/abstract_syntax_tree.rs`.

The Rust module defines the AST node types (`Program`, `BodyItem`, `Value`,
`BinaryPart`, `MemberObject`, `MemberProperty`, and the node structs) together
with their serde `Serialize`/`Deserialize` instances, including a hand-written
`Deserialize` for `NoneCodeMeta` that converts string map keys to `usize` via
`key.parse().unwrap()`.

This file gives a shallow embedding:
  * `Json` models the serde_json document tree (numbers as `Int`; float-valued
    documents are outside the scope of the claims considered here).
  * `DR` models the outcome of a deserialization: success, a decode error
    returned to the caller, or a Rust panic (`unwrap` on a failed parse).
  * Encoding follows the derived serde `Serialize` impls (field order is
    declaration order; internally tagged enums emit `"type"` first; `usize`
    map keys are rendered as canonical decimal strings; `None` renders as
    `null`).
  * Decoding follows the derived serde `Deserialize` impls (fields looked up
    by name, unknown fields ignored, missing required fields and wrong shapes
    are errors, `Option` fields treat `null` and absence as `None`), plus the
    hand-written `NoneCodeMeta` instance.  The recursive decoders take a fuel
    argument so that they are structurally recursive; the public entry points
    supply fuel computed from the size of the input document, which is always
    sufficient.
-/

/-- A JSON document, as modelled by `serde_json::Value`.  Numbers are modelled
as integers; object fields are kept in document order. -/
inductive Json where
  | null : Json
  | bool (b : Bool) : Json
  | num (n : Int) : Json
  | str (s : String) : Json
  | arr (elements : List Json) : Json
  | obj (fields : List (String × Json)) : Json

/-- Decode errors, as the spec's taxonomy names them.  The derived serde
impls produce only `schemaMismatch`-class errors; `malformedKey` is the error
the spec assigns to a bad `noneCodeNodes` key. -/
inductive DecodeError where
  | schemaMismatch : DecodeError
  | malformedKey : DecodeError
deriving DecidableEq

/-- Outcome of running a deserializer: a value, a decode error propagated to
the caller, or a Rust panic (the process aborts; nothing is returned). -/
inductive DR (α : Type) where
  | ok (a : α) : DR α
  | err (e : DecodeError) : DR α
  | panic : DR α

namespace DR

def bind : DR α → (α → DR β) → DR β
  | .ok a, f => f a
  | .err e, _ => .err e
  | .panic, _ => .panic

instance : Monad DR where
  pure := .ok
  bind := DR.bind

def map (f : α → β) : DR α → DR β
  | .ok a => .ok (f a)
  | .err e => .err e
  | .panic => .panic

instance : Functor DR := { map := DR.map }

/-- Effectful map over a list (value-level `collect`ing as serde does for
sequences and maps): first failure wins. -/
def mapList (f : α → DR β) : List α → DR (List β)
  | [] => .ok []
  | a :: as' => do
    let b ← f a
    let bs ← mapList f as'
    pure (b :: bs)

end DR

namespace Json

/-- Field lookup in a JSON object, first occurrence wins (document order). -/
def jlookup (k : String) : List (String × Json) → Option Json
  | [] => none
  | (k', v) :: rest => if k = k' then some v else jlookup k rest

mutual

/-- Size of a document; the public decode entry points use it as fuel. -/
def size : Json → Nat
  | .null | .bool _ | .num _ | .str _ => 1
  | .arr es => sizeList es + 1
  | .obj fs => sizeFields fs + 1

/-- Size of a list of documents. -/
def sizeList : List Json → Nat
  | [] => 0
  | e :: es => size e + sizeList es + 1

/-- Size of an object's field list. -/
def sizeFields : List (String × Json) → Nat
  | [] => 0
  | f :: fs => size f.2 + sizeFields fs + 1

end

/-- Serde: expecting a map. -/
def asObj : Json → DR (List (String × Json))
  | .obj fs => .ok fs
  | _ => .err .schemaMismatch

/-- Serde: expecting a sequence. -/
def asArr : Json → DR (List Json)
  | .arr es => .ok es
  | _ => .err .schemaMismatch

/-- Serde: expecting a `usize` (a non-negative integer). -/
def asNat : Json → DR Nat
  | .num n => if n < 0 then .err .schemaMismatch else .ok n.toNat
  | _ => .err .schemaMismatch

/-- Serde: expecting a string. -/
def asStr : Json → DR String
  | .str s => .ok s
  | _ => .err .schemaMismatch

/-- Serde: expecting a bool. -/
def asBool : Json → DR Bool
  | .bool b => .ok b
  | _ => .err .schemaMismatch

/-- Serde: a required struct field (missing field is an error). -/
def reqField (fs : List (String × Json)) (k : String) : DR Json :=
  match jlookup k fs with
  | some v => .ok v
  | none => .err .schemaMismatch

def getNat (fs : List (String × Json)) (k : String) : DR Nat :=
  reqField fs k >>= asNat

def getStr (fs : List (String × Json)) (k : String) : DR String :=
  reqField fs k >>= asStr

def getBool (fs : List (String × Json)) (k : String) : DR Bool :=
  reqField fs k >>= asBool

/-- Serde: an `Option<T>` struct field — both an absent field and an
explicit `null` decode to `None`. -/
def getOpt (fs : List (String × Json)) (k : String) (dec : Json → DR α) :
    DR (Option α) :=
  match jlookup k fs with
  | none => .ok none
  | some .null => .ok none
  | some v => (dec v).map some

end Json

/-- Rust `usize::from_str` as used by `key.parse::<usize>()`: an optional
leading `+`, then one or more ASCII digits.  (Values exceeding `usize::MAX`
would also fail in Rust; no claim here involves such magnitudes, and the
embedding uses unbounded `Nat`.) -/
def parseUsize (s : String) : Option Nat :=
  let cs := s.data
  let cs := if cs.head? = some '+' then cs.tail else cs
  if cs.isEmpty then none
  else if cs.all (fun c => c.isDigit) then
    some (cs.foldl (fun acc c => acc * 10 + (c.toNat - 48)) 0)
  else none

/-- Digit characters of `n`, most significant first; structurally recursive
on a fuel argument (any fuel at least `n` yields the digits of `n`). -/
def natToDigitsAux : Nat → Nat → List Char
  | 0, _ => []
  | fuel+1, n =>
    if n = 0 then [] else natToDigitsAux fuel (n / 10) ++ [Char.ofNat (n % 10 + 48)]

/-- Canonical decimal rendering of a `usize`, as serde_json renders integer
map keys (Rust's `Display` for unsigned integers: no sign, no leading
zeros). -/
def natToString (n : Nat) : String :=
  if n = 0 then "0" else ⟨natToDigitsAux n n⟩



open Json (jlookup asObj asArr asNat asStr asBool reqField getNat getStr getBool getOpt)

/-! ## Leaf node types (no recursion through the AST) -/

/-- Rust `NoneCodeNode { start, end, value }`. -/
structure NoneCodeNode where
  start : Nat
  end_ : Nat
  value : String

/-- Rust `Identifier { start, end, name }`. -/
structure Identifier where
  start : Nat
  end_ : Nat
  name : String

/-- Rust `Literal { start, end, value: serde_json::Value, raw }`. -/
structure Literal where
  start : Nat
  end_ : Nat
  value : Json
  raw : String

/-- Rust `PipeSubstitution { start, end }`. -/
structure PipeSubstitution where
  start : Nat
  end_ : Nat

/-- Rust `NoneCodeMeta { none_code_nodes: HashMap<usize, NoneCodeNode>,
start: Option<NoneCodeNode> }`.  The hash map is modelled as an association
list; a well-formed map has pairwise distinct keys. -/
structure NoneCodeMeta where
  none_code_nodes : List (Nat × NoneCodeNode)
  start : Option NoneCodeNode

def encodeNoneCodeNode (n : NoneCodeNode) : Json :=
  .obj [("start", .num n.start), ("end", .num n.end_), ("value", .str n.value)]

def decodeNoneCodeNode (j : Json) : DR NoneCodeNode := do
  let fs ← asObj j
  let s ← getNat fs "start"
  let e ← getNat fs "end"
  let v ← getStr fs "value"
  pure ⟨s, e, v⟩

def identifierFields (i : Identifier) : List (String × Json) :=
  [("start", .num i.start), ("end", .num i.end_), ("name", .str i.name)]

def decodeIdentifier (j : Json) : DR Identifier := do
  let fs ← asObj j
  let s ← getNat fs "start"
  let e ← getNat fs "end"
  let n ← getStr fs "name"
  pure ⟨s, e, n⟩

def literalFields (l : Literal) : List (String × Json) :=
  [("start", .num l.start), ("end", .num l.end_), ("value", l.value),
   ("raw", .str l.raw)]

def decodeLiteral (j : Json) : DR Literal := do
  let fs ← asObj j
  let s ← getNat fs "start"
  let e ← getNat fs "end"
  let v ← reqField fs "value"
  let r ← getStr fs "raw"
  pure ⟨s, e, v, r⟩

def pipeSubstitutionFields (p : PipeSubstitution) : List (String × Json) :=
  [("start", .num p.start), ("end", .num p.end_)]

def decodePipeSubstitution (j : Json) : DR PipeSubstitution := do
  let fs ← asObj j
  let s ← getNat fs "start"
  let e ← getNat fs "end"
  pure ⟨s, e⟩

/-- Rust `HashMap::insert`: replace the value at an existing key, otherwise add
the binding at the end. -/
def insertKV (k : Nat) (v : NoneCodeNode) :
    List (Nat × NoneCodeNode) → List (Nat × NoneCodeNode)
  | [] => [(k, v)]
  | (k', v') :: rest =>
    if k = k' then (k, v) :: rest else (k', v') :: insertKV k v rest

/-- The key-conversion loop of the hand-written `Deserialize for
NoneCodeMeta`: `none_code_nodes.insert(key.parse().unwrap(), value)` for each
entry of the string-keyed helper map.  A key that does not parse as a
non-negative integer makes `unwrap` panic. -/
def buildNoneCodeNodes :
    List (String × NoneCodeNode) → List (Nat × NoneCodeNode) →
    DR (List (Nat × NoneCodeNode))
  | [], acc => .ok acc
  | (k, v) :: rest, acc =>
    match parseUsize k with
    | some n => buildNoneCodeNodes rest (insertKV n v acc)
    | none => .panic

/-- The `NoneCodeMetaHelper` deserialization followed by the key-conversion
loop.  The helper struct requires field `noneCodeNodes` (a string-keyed map
of fragment records) and accepts an optional `start` fragment. -/
def decodeNoneCodeMeta (j : Json) : DR NoneCodeMeta := do
  let fs ← asObj j
  let entriesJson ← reqField fs "noneCodeNodes" >>= asObj
  let entries ← DR.mapList
    (fun kv => (decodeNoneCodeNode kv.2).map (fun n => (kv.1, n))) entriesJson
  let startO ← getOpt fs "start" decodeNoneCodeNode
  let nodes ← buildNoneCodeNodes entries []
  pure ⟨nodes, startO⟩

/-- Serde rendering of an `Option<NoneCodeNode>` field value: `None` is
`null`. -/
def encodeOptNoneCodeNode : Option NoneCodeNode → Json
  | none => .null
  | some n => encodeNoneCodeNode n

/-- Serde `Serialize` for `NoneCodeMeta` (derived): `noneCodeNodes` renders
each `usize` key as its decimal string; `start` renders `None` as `null`. -/
def encodeNoneCodeMeta (m : NoneCodeMeta) : Json :=
  .obj [("noneCodeNodes",
          .obj (m.none_code_nodes.map
            (fun kv => (natToString kv.1, encodeNoneCodeNode kv.2)))),
        ("start", encodeOptNoneCodeNode m.start)]

/-! ## The AST node taxonomy (`#[serde(tag = "type")]` enums and node
structs), mirroring the Rust declarations.  `end` is a Lean keyword, so the
field is named `end_`. -/

/-- Rust `enum MemberProperty { Identifier, Literal }` (non-recursive). -/
inductive MemberProperty where
  | identifier (i : Identifier)
  | literal (l : Literal)

mutual

/-- Rust `enum BodyItem`. -/
inductive BodyItem where
  | expressionStatement (e : ExpressionStatement)
  | variableDeclaration (v : VariableDeclaration)
  | returnStatement (r : ReturnStatement)

/-- Rust `struct ExpressionStatement { start, end, expression }`. -/
inductive ExpressionStatement where
  | mk (start end_ : Nat) (expression : Value)

/-- Rust `struct VariableDeclaration { start, end, declarations, kind }`. -/
inductive VariableDeclaration where
  | mk (start end_ : Nat) (declarations : List VariableDeclarator) (kind : String)

/-- Rust `struct VariableDeclarator { start, end, id, init }`. -/
inductive VariableDeclarator where
  | mk (start end_ : Nat) (id : Identifier) (init : Value)

/-- Rust `struct ReturnStatement { start, end, argument }`. -/
inductive ReturnStatement where
  | mk (start end_ : Nat) (argument : Value)

/-- Rust `enum Value` — the expression grammar. -/
inductive Value where
  | literal (l : Literal)
  | identifier (i : Identifier)
  | binaryExpression (b : BinaryExpression)
  | functionExpression (f : FunctionExpression)
  | callExpression (c : CallExpression)
  | pipeExpression (p : PipeExpression)
  | pipeSubstitution (p : PipeSubstitution)
  | arrayExpression (a : ArrayExpression)
  | objectExpression (o : ObjectExpression)
  | memberExpression (m : MemberExpression)
  | unaryExpression (u : UnaryExpression)

/-- Rust `enum BinaryPart` — operands of binary/unary expressions. -/
inductive BinaryPart where
  | literal (l : Literal)
  | identifier (i : Identifier)
  | binaryExpression (b : BinaryExpression)
  | callExpression (c : CallExpression)
  | unaryExpression (u : UnaryExpression)

/-- Rust `struct CallExpression { start, end, callee, arguments, optional }`. -/
inductive CallExpression where
  | mk (start end_ : Nat) (callee : Identifier) (arguments : List Value)
      (optional : Bool)

/-- Rust `struct BinaryExpression { start, end, operator, left, right }`. -/
inductive BinaryExpression where
  | mk (start end_ : Nat) (operator : String) (left right : BinaryPart)

/-- Rust `struct UnaryExpression { start, end, operator, argument }`. -/
inductive UnaryExpression where
  | mk (start end_ : Nat) (operator : String) (argument : BinaryPart)

/-- Rust `struct PipeExpression { start, end, body, non_code_meta }`. -/
inductive PipeExpression where
  | mk (start end_ : Nat) (body : List Value) (non_code_meta : NoneCodeMeta)

/-- Rust `struct ArrayExpression { start, end, elements }`. -/
inductive ArrayExpression where
  | mk (start end_ : Nat) (elements : List Value)

/-- Rust `struct ObjectExpression { start, end, properties }`. -/
inductive ObjectExpression where
  | mk (start end_ : Nat) (properties : List ObjectProperty)

/-- Rust `struct ObjectProperty { start, end, key, value }`. -/
inductive ObjectProperty where
  | mk (start end_ : Nat) (key : Identifier) (value : Value)

/-- Rust `enum MemberObject { MemberExpression, Identifier }`. -/
inductive MemberObject where
  | memberExpression (m : MemberExpression)
  | identifier (i : Identifier)

/-- Rust `struct MemberExpression { start, end, object, property, computed }`. -/
inductive MemberExpression where
  | mk (start end_ : Nat) (object : MemberObject) (property : MemberProperty)
      (computed : Bool)

/-- Rust `struct FunctionExpression { start, end, id, params, body }`. -/
inductive FunctionExpression where
  | mk (start end_ : Nat) (id : Option Identifier) (params : List Identifier)
      (body : BlockStatement)

/-- Rust `struct BlockStatement { start, end, body, non_code_meta }`. -/
inductive BlockStatement where
  | mk (start end_ : Nat) (body : List BodyItem) (non_code_meta : NoneCodeMeta)

end

/-- Rust `struct Program { start, end, body, non_code_meta }` — the root. -/
structure Program where
  start : Nat
  end_ : Nat
  body : List BodyItem
  non_code_meta : NoneCodeMeta

/-! ## Encoding (derived serde `Serialize`): struct fields in declaration
order; internally tagged enums emit `("type", tag)` first; nested plain
structs are untagged objects. -/

def encodeMemberProperty : MemberProperty → Json
  | .identifier i => .obj (("type", .str "Identifier") :: identifierFields i)
  | .literal l => .obj (("type", .str "Literal") :: literalFields l)

def encodeOptIdentifier : Option Identifier → Json
  | none => .null
  | some i => .obj (identifierFields i)

mutual

def encodeBodyItem : BodyItem → Json
  | .expressionStatement e =>
    .obj (("type", .str "ExpressionStatement") :: expressionStatementFields e)
  | .variableDeclaration v =>
    .obj (("type", .str "VariableDeclaration") :: variableDeclarationFields v)
  | .returnStatement r =>
    .obj (("type", .str "ReturnStatement") :: returnStatementFields r)

def encodeBodyItems : List BodyItem → List Json
  | [] => []
  | b :: bs => encodeBodyItem b :: encodeBodyItems bs

def expressionStatementFields : ExpressionStatement → List (String × Json)
  | .mk s e v =>
    [("start", .num s), ("end", .num e), ("expression", encodeValue v)]

def variableDeclarationFields : VariableDeclaration → List (String × Json)
  | .mk s e decls kind =>
    [("start", .num s), ("end", .num e),
     ("declarations", .arr (encodeDeclarators decls)), ("kind", .str kind)]

def encodeDeclarators : List VariableDeclarator → List Json
  | [] => []
  | d :: ds => .obj (variableDeclaratorFields d) :: encodeDeclarators ds

def variableDeclaratorFields : VariableDeclarator → List (String × Json)
  | .mk s e id init =>
    [("start", .num s), ("end", .num e), ("id", .obj (identifierFields id)),
     ("init", encodeValue init)]

def returnStatementFields : ReturnStatement → List (String × Json)
  | .mk s e arg =>
    [("start", .num s), ("end", .num e), ("argument", encodeValue arg)]

def encodeValue : Value → Json
  | .literal l => .obj (("type", .str "Literal") :: literalFields l)
  | .identifier i => .obj (("type", .str "Identifier") :: identifierFields i)
  | .binaryExpression b =>
    .obj (("type", .str "BinaryExpression") :: binaryExpressionFields b)
  | .functionExpression f =>
    .obj (("type", .str "FunctionExpression") :: functionExpressionFields f)
  | .callExpression c =>
    .obj (("type", .str "CallExpression") :: callExpressionFields c)
  | .pipeExpression p =>
    .obj (("type", .str "PipeExpression") :: pipeExpressionFields p)
  | .pipeSubstitution p =>
    .obj (("type", .str "PipeSubstitution") :: pipeSubstitutionFields p)
  | .arrayExpression a =>
    .obj (("type", .str "ArrayExpression") :: arrayExpressionFields a)
  | .objectExpression o =>
    .obj (("type", .str "ObjectExpression") :: objectExpressionFields o)
  | .memberExpression m =>
    .obj (("type", .str "MemberExpression") :: memberExpressionFields m)
  | .unaryExpression u =>
    .obj (("type", .str "UnaryExpression") :: unaryExpressionFields u)

def encodeValues : List Value → List Json
  | [] => []
  | v :: vs => encodeValue v :: encodeValues vs

def encodeBinaryPart : BinaryPart → Json
  | .literal l => .obj (("type", .str "Literal") :: literalFields l)
  | .identifier i => .obj (("type", .str "Identifier") :: identifierFields i)
  | .binaryExpression b =>
    .obj (("type", .str "BinaryExpression") :: binaryExpressionFields b)
  | .callExpression c =>
    .obj (("type", .str "CallExpression") :: callExpressionFields c)
  | .unaryExpression u =>
    .obj (("type", .str "UnaryExpression") :: unaryExpressionFields u)

def callExpressionFields : CallExpression → List (String × Json)
  | .mk s e callee args opt =>
    [("start", .num s), ("end", .num e), ("callee", .obj (identifierFields callee)),
     ("arguments", .arr (encodeValues args)), ("optional", .bool opt)]

def binaryExpressionFields : BinaryExpression → List (String × Json)
  | .mk s e op l r =>
    [("start", .num s), ("end", .num e), ("operator", .str op),
     ("left", encodeBinaryPart l), ("right", encodeBinaryPart r)]

def unaryExpressionFields : UnaryExpression → List (String × Json)
  | .mk s e op arg =>
    [("start", .num s), ("end", .num e), ("operator", .str op),
     ("argument", encodeBinaryPart arg)]

def pipeExpressionFields : PipeExpression → List (String × Json)
  | .mk s e body ncm =>
    [("start", .num s), ("end", .num e), ("body", .arr (encodeValues body)),
     ("nonCodeMeta", encodeNoneCodeMeta ncm)]

def arrayExpressionFields : ArrayExpression → List (String × Json)
  | .mk s e els =>
    [("start", .num s), ("end", .num e), ("elements", .arr (encodeValues els))]

def objectExpressionFields : ObjectExpression → List (String × Json)
  | .mk s e props =>
    [("start", .num s), ("end", .num e),
     ("properties", .arr (encodeObjectProperties props))]

def encodeObjectProperties : List ObjectProperty → List Json
  | [] => []
  | p :: ps => .obj (objectPropertyFields p) :: encodeObjectProperties ps

def objectPropertyFields : ObjectProperty → List (String × Json)
  | .mk s e key v =>
    [("start", .num s), ("end", .num e), ("key", .obj (identifierFields key)),
     ("value", encodeValue v)]

def encodeMemberObject : MemberObject → Json
  | .memberExpression m =>
    .obj (("type", .str "MemberExpression") :: memberExpressionFields m)
  | .identifier i => .obj (("type", .str "Identifier") :: identifierFields i)

def memberExpressionFields : MemberExpression → List (String × Json)
  | .mk s e obj prop computed =>
    [("start", .num s), ("end", .num e), ("object", encodeMemberObject obj),
     ("property", encodeMemberProperty prop), ("computed", .bool computed)]

def functionExpressionFields : FunctionExpression → List (String × Json)
  | .mk s e id params body =>
    [("start", .num s), ("end", .num e), ("id", encodeOptIdentifier id),
     ("params", .arr (params.map (fun i => .obj (identifierFields i)))),
     ("body", .obj (blockStatementFields body))]

def blockStatementFields : BlockStatement → List (String × Json)
  | .mk s e body ncm =>
    [("start", .num s), ("end", .num e), ("body", .arr (encodeBodyItems body)),
     ("nonCodeMeta", encodeNoneCodeMeta ncm)]

end

def encodeProgram (p : Program) : Json :=
  .obj [("start", .num p.start), ("end", .num p.end_),
        ("body", .arr (encodeBodyItems p.body)),
        ("nonCodeMeta", encodeNoneCodeMeta p.non_code_meta)]

def encodeCallExpression (c : CallExpression) : Json :=
  .obj (callExpressionFields c)

/-! ## Decoding (derived serde `Deserialize`): the recursive decoders are
structurally recursive on a fuel argument; the public entry points pass
`Json.size` of the input, which is always sufficient fuel. -/

def decodeMemberProperty (j : Json) : DR MemberProperty := do
  let fs ← asObj j
  let t ← getStr fs "type"
  match t with
  | "Identifier" => (decodeIdentifier j).map .identifier
  | "Literal" => (decodeLiteral j).map .literal
  | _ => .err .schemaMismatch

mutual

def decodeBodyItemF : Nat → Json → DR BodyItem
  | 0, _ => .err .schemaMismatch
  | fuel+1, j => do
    let fs ← asObj j
    let t ← getStr fs "type"
    match t with
    | "ExpressionStatement" =>
      (decodeExpressionStatementF fuel j).map .expressionStatement
    | "VariableDeclaration" =>
      (decodeVariableDeclarationF fuel j).map .variableDeclaration
    | "ReturnStatement" => (decodeReturnStatementF fuel j).map .returnStatement
    | _ => .err .schemaMismatch

def decodeBodyItemsF : Nat → List Json → DR (List BodyItem)
  | _, [] => .ok []
  | 0, _ :: _ => .err .schemaMismatch
  | fuel+1, j :: js => do
    let b ← decodeBodyItemF fuel j
    let bs ← decodeBodyItemsF fuel js
    pure (b :: bs)

def decodeExpressionStatementF : Nat → Json → DR ExpressionStatement
  | 0, _ => .err .schemaMismatch
  | fuel+1, j => do
    let fs ← asObj j
    let s ← getNat fs "start"
    let e ← getNat fs "end"
    let v ← reqField fs "expression" >>= decodeValueF fuel
    pure (.mk s e v)

def decodeVariableDeclarationF : Nat → Json → DR VariableDeclaration
  | 0, _ => .err .schemaMismatch
  | fuel+1, j => do
    let fs ← asObj j
    let s ← getNat fs "start"
    let e ← getNat fs "end"
    let ds ← reqField fs "declarations" >>= asArr >>= decodeDeclaratorsF fuel
    let kind ← getStr fs "kind"
    pure (.mk s e ds kind)

def decodeDeclaratorsF : Nat → List Json → DR (List VariableDeclarator)
  | _, [] => .ok []
  | 0, _ :: _ => .err .schemaMismatch
  | fuel+1, j :: js => do
    let d ← decodeVariableDeclaratorF fuel j
    let ds ← decodeDeclaratorsF fuel js
    pure (d :: ds)

def decodeVariableDeclaratorF : Nat → Json → DR VariableDeclarator
  | 0, _ => .err .schemaMismatch
  | fuel+1, j => do
    let fs ← asObj j
    let s ← getNat fs "start"
    let e ← getNat fs "end"
    let id ← reqField fs "id" >>= decodeIdentifier
    let init ← reqField fs "init" >>= decodeValueF fuel
    pure (.mk s e id init)

def decodeReturnStatementF : Nat → Json → DR ReturnStatement
  | 0, _ => .err .schemaMismatch
  | fuel+1, j => do
    let fs ← asObj j
    let s ← getNat fs "start"
    let e ← getNat fs "end"
    let arg ← reqField fs "argument" >>= decodeValueF fuel
    pure (.mk s e arg)

def decodeValueF : Nat → Json → DR Value
  | 0, _ => .err .schemaMismatch
  | fuel+1, j => do
    let fs ← asObj j
    let t ← getStr fs "type"
    match t with
    | "Literal" => (decodeLiteral j).map .literal
    | "Identifier" => (decodeIdentifier j).map .identifier
    | "BinaryExpression" => (decodeBinaryExpressionF fuel j).map .binaryExpression
    | "FunctionExpression" =>
      (decodeFunctionExpressionF fuel j).map .functionExpression
    | "CallExpression" => (decodeCallExpressionF fuel j).map .callExpression
    | "PipeExpression" => (decodePipeExpressionF fuel j).map .pipeExpression
    | "PipeSubstitution" => (decodePipeSubstitution j).map .pipeSubstitution
    | "ArrayExpression" => (decodeArrayExpressionF fuel j).map .arrayExpression
    | "ObjectExpression" => (decodeObjectExpressionF fuel j).map .objectExpression
    | "MemberExpression" => (decodeMemberExpressionF fuel j).map .memberExpression
    | "UnaryExpression" => (decodeUnaryExpressionF fuel j).map .unaryExpression
    | _ => .err .schemaMismatch

def decodeValuesF : Nat → List Json → DR (List Value)
  | _, [] => .ok []
  | 0, _ :: _ => .err .schemaMismatch
  | fuel+1, j :: js => do
    let v ← decodeValueF fuel j
    let vs ← decodeValuesF fuel js
    pure (v :: vs)

def decodeBinaryPartF : Nat → Json → DR BinaryPart
  | 0, _ => .err .schemaMismatch
  | fuel+1, j => do
    let fs ← asObj j
    let t ← getStr fs "type"
    match t with
    | "Literal" => (decodeLiteral j).map .literal
    | "Identifier" => (decodeIdentifier j).map .identifier
    | "BinaryExpression" => (decodeBinaryExpressionF fuel j).map .binaryExpression
    | "CallExpression" => (decodeCallExpressionF fuel j).map .callExpression
    | "UnaryExpression" => (decodeUnaryExpressionF fuel j).map .unaryExpression
    | _ => .err .schemaMismatch

def decodeCallExpressionF : Nat → Json → DR CallExpression
  | 0, _ => .err .schemaMismatch
  | fuel+1, j => do
    let fs ← asObj j
    let s ← getNat fs "start"
    let e ← getNat fs "end"
    let callee ← reqField fs "callee" >>= decodeIdentifier
    let args ← reqField fs "arguments" >>= asArr >>= decodeValuesF fuel
    let opt ← getBool fs "optional"
    pure (.mk s e callee args opt)

def decodeBinaryExpressionF : Nat → Json → DR BinaryExpression
  | 0, _ => .err .schemaMismatch
  | fuel+1, j => do
    let fs ← asObj j
    let s ← getNat fs "start"
    let e ← getNat fs "end"
    let op ← getStr fs "operator"
    let l ← reqField fs "left" >>= decodeBinaryPartF fuel
    let r ← reqField fs "right" >>= decodeBinaryPartF fuel
    pure (.mk s e op l r)

def decodeUnaryExpressionF : Nat → Json → DR UnaryExpression
  | 0, _ => .err .schemaMismatch
  | fuel+1, j => do
    let fs ← asObj j
    let s ← getNat fs "start"
    let e ← getNat fs "end"
    let op ← getStr fs "operator"
    let arg ← reqField fs "argument" >>= decodeBinaryPartF fuel
    pure (.mk s e op arg)

def decodePipeExpressionF : Nat → Json → DR PipeExpression
  | 0, _ => .err .schemaMismatch
  | fuel+1, j => do
    let fs ← asObj j
    let s ← getNat fs "start"
    let e ← getNat fs "end"
    let body ← reqField fs "body" >>= asArr >>= decodeValuesF fuel
    let ncm ← reqField fs "nonCodeMeta" >>= decodeNoneCodeMeta
    pure (.mk s e body ncm)

def decodeArrayExpressionF : Nat → Json → DR ArrayExpression
  | 0, _ => .err .schemaMismatch
  | fuel+1, j => do
    let fs ← asObj j
    let s ← getNat fs "start"
    let e ← getNat fs "end"
    let els ← reqField fs "elements" >>= asArr >>= decodeValuesF fuel
    pure (.mk s e els)

def decodeObjectExpressionF : Nat → Json → DR ObjectExpression
  | 0, _ => .err .schemaMismatch
  | fuel+1, j => do
    let fs ← asObj j
    let s ← getNat fs "start"
    let e ← getNat fs "end"
    let props ← reqField fs "properties" >>= asArr >>= decodeObjectPropertiesF fuel
    pure (.mk s e props)

def decodeObjectPropertiesF : Nat → List Json → DR (List ObjectProperty)
  | _, [] => .ok []
  | 0, _ :: _ => .err .schemaMismatch
  | fuel+1, j :: js => do
    let p ← decodeObjectPropertyF fuel j
    let ps ← decodeObjectPropertiesF fuel js
    pure (p :: ps)

def decodeObjectPropertyF : Nat → Json → DR ObjectProperty
  | 0, _ => .err .schemaMismatch
  | fuel+1, j => do
    let fs ← asObj j
    let s ← getNat fs "start"
    let e ← getNat fs "end"
    let key ← reqField fs "key" >>= decodeIdentifier
    let v ← reqField fs "value" >>= decodeValueF fuel
    pure (.mk s e key v)

def decodeMemberObjectF : Nat → Json → DR MemberObject
  | 0, _ => .err .schemaMismatch
  | fuel+1, j => do
    let fs ← asObj j
    let t ← getStr fs "type"
    match t with
    | "MemberExpression" => (decodeMemberExpressionF fuel j).map .memberExpression
    | "Identifier" => (decodeIdentifier j).map .identifier
    | _ => .err .schemaMismatch

def decodeMemberExpressionF : Nat → Json → DR MemberExpression
  | 0, _ => .err .schemaMismatch
  | fuel+1, j => do
    let fs ← asObj j
    let s ← getNat fs "start"
    let e ← getNat fs "end"
    let obj ← reqField fs "object" >>= decodeMemberObjectF fuel
    let prop ← reqField fs "property" >>= decodeMemberProperty
    let comp ← getBool fs "computed"
    pure (.mk s e obj prop comp)

def decodeFunctionExpressionF : Nat → Json → DR FunctionExpression
  | 0, _ => .err .schemaMismatch
  | fuel+1, j => do
    let fs ← asObj j
    let s ← getNat fs "start"
    let e ← getNat fs "end"
    let id ← getOpt fs "id" decodeIdentifier
    let params ← reqField fs "params" >>= asArr >>= DR.mapList decodeIdentifier
    let body ← reqField fs "body" >>= decodeBlockStatementF fuel
    pure (.mk s e id params body)

def decodeBlockStatementF : Nat → Json → DR BlockStatement
  | 0, _ => .err .schemaMismatch
  | fuel+1, j => do
    let fs ← asObj j
    let s ← getNat fs "start"
    let e ← getNat fs "end"
    let body ← reqField fs "body" >>= asArr >>= decodeBodyItemsF fuel
    let ncm ← reqField fs "nonCodeMeta" >>= decodeNoneCodeMeta
    pure (.mk s e body ncm)

end

def decodeProgramF (fuel : Nat) (j : Json) : DR Program := do
  let fs ← asObj j
  let s ← getNat fs "start"
  let e ← getNat fs "end"
  let body ← reqField fs "body" >>= asArr >>= decodeBodyItemsF fuel
  let ncm ← reqField fs "nonCodeMeta" >>= decodeNoneCodeMeta
  pure ⟨s, e, body, ncm⟩

/-! Public decode entry points: fuel is the size of the input document. -/

def decodeProgram (j : Json) : DR Program := decodeProgramF (Json.size j) j

def decodeValue (j : Json) : DR Value := decodeValueF (Json.size j) j

def decodeBodyItem (j : Json) : DR BodyItem := decodeBodyItemF (Json.size j) j

def decodeBinaryPart (j : Json) : DR BinaryPart :=
  decodeBinaryPartF (Json.size j) j

def decodeMemberObject (j : Json) : DR MemberObject :=
  decodeMemberObjectF (Json.size j) j

def decodeCallExpression (j : Json) : DR CallExpression :=
  decodeCallExpressionF (Json.size j) j

/-! ## Fuel accounting: `fuelX t` is enough fuel for `decodeXF` to decode
`encodeX t`. -/

mutual

def fuelBodyItem : BodyItem → Nat
  | .expressionStatement e => fuelExpressionStatement e + 1
  | .variableDeclaration v => fuelVariableDeclaration v + 1
  | .returnStatement r => fuelReturnStatement r + 1

def fuelBodyItems : List BodyItem → Nat
  | [] => 0
  | b :: bs => max (fuelBodyItem b) (fuelBodyItems bs) + 1

def fuelExpressionStatement : ExpressionStatement → Nat
  | .mk _ _ v => fuelValue v + 1

def fuelVariableDeclaration : VariableDeclaration → Nat
  | .mk _ _ ds _ => fuelDeclarators ds + 1

def fuelDeclarators : List VariableDeclarator → Nat
  | [] => 0
  | d :: ds => max (fuelVariableDeclarator d) (fuelDeclarators ds) + 1

def fuelVariableDeclarator : VariableDeclarator → Nat
  | .mk _ _ _ init => fuelValue init + 1

def fuelReturnStatement : ReturnStatement → Nat
  | .mk _ _ arg => fuelValue arg + 1

def fuelValue : Value → Nat
  | .literal _ => 1
  | .identifier _ => 1
  | .binaryExpression b => fuelBinaryExpression b + 1
  | .functionExpression f => fuelFunctionExpression f + 1
  | .callExpression c => fuelCallExpression c + 1
  | .pipeExpression p => fuelPipeExpression p + 1
  | .pipeSubstitution _ => 1
  | .arrayExpression a => fuelArrayExpression a + 1
  | .objectExpression o => fuelObjectExpression o + 1
  | .memberExpression m => fuelMemberExpression m + 1
  | .unaryExpression u => fuelUnaryExpression u + 1

def fuelValues : List Value → Nat
  | [] => 0
  | v :: vs => max (fuelValue v) (fuelValues vs) + 1

def fuelBinaryPart : BinaryPart → Nat
  | .literal _ => 1
  | .identifier _ => 1
  | .binaryExpression b => fuelBinaryExpression b + 1
  | .callExpression c => fuelCallExpression c + 1
  | .unaryExpression u => fuelUnaryExpression u + 1

def fuelCallExpression : CallExpression → Nat
  | .mk _ _ _ args _ => fuelValues args + 1

def fuelBinaryExpression : BinaryExpression → Nat
  | .mk _ _ _ l r => max (fuelBinaryPart l) (fuelBinaryPart r) + 1

def fuelUnaryExpression : UnaryExpression → Nat
  | .mk _ _ _ arg => fuelBinaryPart arg + 1

def fuelPipeExpression : PipeExpression → Nat
  | .mk _ _ body _ => fuelValues body + 1

def fuelArrayExpression : ArrayExpression → Nat
  | .mk _ _ els => fuelValues els + 1

def fuelObjectExpression : ObjectExpression → Nat
  | .mk _ _ props => fuelObjectProperties props + 1

def fuelObjectProperties : List ObjectProperty → Nat
  | [] => 0
  | p :: ps => max (fuelObjectProperty p) (fuelObjectProperties ps) + 1

def fuelObjectProperty : ObjectProperty → Nat
  | .mk _ _ _ v => fuelValue v + 1

def fuelMemberObject : MemberObject → Nat
  | .memberExpression m => fuelMemberExpression m + 1
  | .identifier _ => 1

def fuelMemberExpression : MemberExpression → Nat
  | .mk _ _ obj _ _ => fuelMemberObject obj + 1

def fuelFunctionExpression : FunctionExpression → Nat
  | .mk _ _ _ _ body => fuelBlockStatement body + 1

def fuelBlockStatement : BlockStatement → Nat
  | .mk _ _ body _ => fuelBodyItems body + 1

end

def fuelProgram (p : Program) : Nat := fuelBodyItems p.body

/-! ## Well-formedness: every `NoneCodeMeta` in a tree has pairwise distinct
ordinals (the `HashMap` invariant of the Rust representation). -/

/-- Distinctness of the keys of an association list. -/
def keysNodupB : List (Nat × NoneCodeNode) → Bool
  | [] => true
  | kv :: rest => !(rest.any (fun kv2 => kv2.1 == kv.1)) && keysNodupB rest

def wfNoneCodeMeta (m : NoneCodeMeta) : Bool := keysNodupB m.none_code_nodes

mutual

def wfBodyItem : BodyItem → Bool
  | .expressionStatement e => wfExpressionStatement e
  | .variableDeclaration v => wfVariableDeclaration v
  | .returnStatement r => wfReturnStatement r

def wfBodyItems : List BodyItem → Bool
  | [] => true
  | b :: bs => wfBodyItem b && wfBodyItems bs

def wfExpressionStatement : ExpressionStatement → Bool
  | .mk _ _ v => wfValue v

def wfVariableDeclaration : VariableDeclaration → Bool
  | .mk _ _ ds _ => wfDeclarators ds

def wfDeclarators : List VariableDeclarator → Bool
  | [] => true
  | d :: ds => wfVariableDeclarator d && wfDeclarators ds

def wfVariableDeclarator : VariableDeclarator → Bool
  | .mk _ _ _ init => wfValue init

def wfReturnStatement : ReturnStatement → Bool
  | .mk _ _ arg => wfValue arg

def wfValue : Value → Bool
  | .literal _ => true
  | .identifier _ => true
  | .binaryExpression b => wfBinaryExpression b
  | .functionExpression f => wfFunctionExpression f
  | .callExpression c => wfCallExpression c
  | .pipeExpression p => wfPipeExpression p
  | .pipeSubstitution _ => true
  | .arrayExpression a => wfArrayExpression a
  | .objectExpression o => wfObjectExpression o
  | .memberExpression m => wfMemberExpression m
  | .unaryExpression u => wfUnaryExpression u

def wfValues : List Value → Bool
  | [] => true
  | v :: vs => wfValue v && wfValues vs

def wfBinaryPart : BinaryPart → Bool
  | .literal _ => true
  | .identifier _ => true
  | .binaryExpression b => wfBinaryExpression b
  | .callExpression c => wfCallExpression c
  | .unaryExpression u => wfUnaryExpression u

def wfCallExpression : CallExpression → Bool
  | .mk _ _ _ args _ => wfValues args

def wfBinaryExpression : BinaryExpression → Bool
  | .mk _ _ _ l r => wfBinaryPart l && wfBinaryPart r

def wfUnaryExpression : UnaryExpression → Bool
  | .mk _ _ _ arg => wfBinaryPart arg

def wfPipeExpression : PipeExpression → Bool
  | .mk _ _ body ncm => wfValues body && wfNoneCodeMeta ncm

def wfArrayExpression : ArrayExpression → Bool
  | .mk _ _ els => wfValues els

def wfObjectExpression : ObjectExpression → Bool
  | .mk _ _ props => wfObjectProperties props

def wfObjectProperties : List ObjectProperty → Bool
  | [] => true
  | p :: ps => wfObjectProperty p && wfObjectProperties ps

def wfObjectProperty : ObjectProperty → Bool
  | .mk _ _ _ v => wfValue v

def wfMemberObject : MemberObject → Bool
  | .memberExpression m => wfMemberExpression m
  | .identifier _ => true

def wfMemberExpression : MemberExpression → Bool
  | .mk _ _ obj _ _ => wfMemberObject obj

def wfFunctionExpression : FunctionExpression → Bool
  | .mk _ _ _ _ body => wfBlockStatement body

def wfBlockStatement : BlockStatement → Bool
  | .mk _ _ body ncm => wfBodyItems body && wfNoneCodeMeta ncm

end

def wfProgram (p : Program) : Bool :=
  wfBodyItems p.body && wfNoneCodeMeta p.non_code_meta

/-! ## Tag exhaustiveness: documented tags of each closed variant family -/

def valueTag : Value → String
  | .literal _ => "Literal"
  | .identifier _ => "Identifier"
  | .binaryExpression _ => "BinaryExpression"
  | .functionExpression _ => "FunctionExpression"
  | .callExpression _ => "CallExpression"
  | .pipeExpression _ => "PipeExpression"
  | .pipeSubstitution _ => "PipeSubstitution"
  | .arrayExpression _ => "ArrayExpression"
  | .objectExpression _ => "ObjectExpression"
  | .memberExpression _ => "MemberExpression"
  | .unaryExpression _ => "UnaryExpression"

def valueTags : List String :=
  ["Literal", "Identifier", "BinaryExpression", "FunctionExpression",
   "CallExpression", "PipeExpression", "PipeSubstitution", "ArrayExpression",
   "ObjectExpression", "MemberExpression", "UnaryExpression"]

def bodyItemTag : BodyItem → String
  | .expressionStatement _ => "ExpressionStatement"
  | .variableDeclaration _ => "VariableDeclaration"
  | .returnStatement _ => "ReturnStatement"

def bodyItemTags : List String :=
  ["ExpressionStatement", "VariableDeclaration", "ReturnStatement"]

def binaryPartTag : BinaryPart → String
  | .literal _ => "Literal"
  | .identifier _ => "Identifier"
  | .binaryExpression _ => "BinaryExpression"
  | .callExpression _ => "CallExpression"
  | .unaryExpression _ => "UnaryExpression"

def binaryPartTags : List String :=
  ["Literal", "Identifier", "BinaryExpression", "CallExpression",
   "UnaryExpression"]

def memberObjectTag : MemberObject → String
  | .memberExpression _ => "MemberExpression"
  | .identifier _ => "Identifier"

def memberObjectTags : List String := ["MemberExpression", "Identifier"]

def memberPropertyTag : MemberProperty → String
  | .identifier _ => "Identifier"
  | .literal _ => "Literal"

def memberPropertyTags : List String := ["Identifier", "Literal"]

/-! ## Concrete documents for the claims -/

def hiNode : NoneCodeNode := ⟨10, 14, "// hi"⟩

def hiNodeJ : Json :=
  .obj [("start", .num 10), ("end", .num 14), ("value", .str "// hi")]

def xNode : NoneCodeNode := ⟨20, 24, "x"⟩

def xNodeJ : Json :=
  .obj [("start", .num 20), ("end", .num 24), ("value", .str "x")]

def malformedKeyMetaJ : Json :=
  .obj [("noneCodeNodes", .obj [("abc", hiNodeJ)]), ("start", .null)]

def negativeKeyMetaJ : Json :=
  .obj [("noneCodeNodes", .obj [("-1", hiNodeJ)]), ("start", .null)]

def leadingZeroMetaJ : Json :=
  .obj [("noneCodeNodes", .obj [("03", hiNodeJ)]), ("start", .null)]

def dupKeysMetaJ : Json :=
  .obj [("noneCodeNodes", .obj [("3", hiNodeJ), ("03", xNodeJ)]), ("start", .null)]

def plusKeyMetaJ : Json :=
  .obj [("noneCodeNodes", .obj [("3", hiNodeJ), ("+3", xNodeJ)]), ("start", .null)]

def scenarioA : Json :=
  .obj [("start", .num 0), ("end", .num 5), ("body", .arr []),
        ("nonCodeMeta", .obj [("noneCodeNodes", .obj []), ("start", .null)])]

def scenarioAExtra : Json :=
  .obj [("start", .num 0), ("end", .num 5), ("body", .arr []),
        ("nonCodeMeta", .obj [("noneCodeNodes", .obj []), ("start", .null)]),
        ("version", .str "1.0")]

def startGtEndJ : Json :=
  .obj [("start", .num 5), ("end", .num 0), ("body", .arr []),
        ("nonCodeMeta", .obj [("noneCodeNodes", .obj []), ("start", .null)])]

def nullLiteralJ : Json :=
  .obj [("type", .str "Literal"), ("start", .num 0), ("end", .num 1),
        ("value", .null), ("raw", .str "null")]

def arrLiteralJ : Json :=
  .obj [("type", .str "Literal"), ("start", .num 0), ("end", .num 5),
        ("value", .arr [.num 1, .num 2]), ("raw", .str "[1, 2]")]

def objLiteralJ : Json :=
  .obj [("type", .str "Literal"), ("start", .num 0), ("end", .num 2),
        ("value", .obj [("a", .num 1)]), ("raw", .str "objectlit")]

/-- Scenario B exactly as the claim writes it: no `start`/`end` fields. -/
def scenarioB : Json :=
  .obj [("type", .str "CallExpression"),
        ("callee", .obj [("type", .str "Identifier"), ("name", .str "foo")]),
        ("arguments",
          .arr [.obj [("type", .str "Literal"), ("value", .num 1),
                      ("raw", .str "1")]]),
        ("optional", .bool false)]

/-- Scenario B with the mandatory spans added but the callee still carrying
the redundant `"type":"Identifier"` member the claim writes. -/
def scenarioBTagged : Json :=
  .obj [("type", .str "CallExpression"), ("start", .num 0), ("end", .num 6),
        ("callee", .obj [("type", .str "Identifier"), ("start", .num 0),
                         ("end", .num 3), ("name", .str "foo")]),
        ("arguments",
          .arr [.obj [("type", .str "Literal"), ("start", .num 4),
                      ("end", .num 5), ("value", .num 1), ("raw", .str "1")]]),
        ("optional", .bool false)]

/-- Scenario B in the form the serializer actually produces: spans on every
node and an untagged callee object. -/
def scenarioBFull : Json :=
  .obj [("type", .str "CallExpression"), ("start", .num 0), ("end", .num 6),
        ("callee", .obj [("start", .num 0), ("end", .num 3),
                         ("name", .str "foo")]),
        ("arguments",
          .arr [.obj [("type", .str "Literal"), ("start", .num 4),
                      ("end", .num 5), ("value", .num 1), ("raw", .str "1")]]),
        ("optional", .bool false)]

def scenarioBNode : CallExpression :=
  .mk 0 6 ⟨0, 3, "foo"⟩ [.literal ⟨4, 5, .num 1, "1"⟩] false

def sampleProgram : Program :=
  ⟨0, 30,
   [.expressionStatement (.mk 0 10 (.callExpression scenarioBNode))],
   ⟨[(0, hiNode), (1, xNode)], some ⟨0, 0, "hdr"⟩⟩⟩

/-! ## Documented field layouts of each node object (the fields its
decoder consults; for a tagged family, the tag together with the union of
its variants' fields) -/

def layoutIdentifier : List String :=
  ["start", "end", "name"]

def layoutLiteral : List String :=
  ["start", "end", "value", "raw"]

def layoutNoneCodeNode : List String :=
  ["start", "end", "value"]

def layoutPipeSubstitution : List String :=
  ["start", "end"]

def layoutNoneCodeMeta : List String :=
  ["noneCodeNodes", "start"]

def layoutMemberProperty : List String :=
  ["type", "start", "end", "name", "value", "raw"]

def layoutExpressionStatement : List String :=
  ["start", "end", "expression"]

def layoutVariableDeclaration : List String :=
  ["start", "end", "declarations", "kind"]

def layoutVariableDeclarator : List String :=
  ["start", "end", "id", "init"]

def layoutReturnStatement : List String :=
  ["start", "end", "argument"]

def layoutBinaryExpression : List String :=
  ["start", "end", "operator", "left", "right"]

def layoutUnaryExpression : List String :=
  ["start", "end", "operator", "argument"]

def layoutPipeExpression : List String :=
  ["start", "end", "body", "nonCodeMeta"]

def layoutArrayExpression : List String :=
  ["start", "end", "elements"]

def layoutObjectExpression : List String :=
  ["start", "end", "properties"]

def layoutObjectProperty : List String :=
  ["start", "end", "key", "value"]

def layoutMemberExpression : List String :=
  ["start", "end", "object", "property", "computed"]

def layoutFunctionExpression : List String :=
  ["start", "end", "id", "params", "body"]

def layoutBlockStatement : List String :=
  ["start", "end", "body", "nonCodeMeta"]

def layoutBodyItem : List String :=
  ["type", "start", "end", "expression", "declarations", "kind", "argument"]

def layoutValue : List String :=
  ["type", "start", "end", "value", "raw", "name", "operator", "left", "right", "id", "params", "body", "nonCodeMeta", "callee", "arguments", "optional", "elements", "properties", "object", "property", "computed", "argument"]

def layoutBinaryPart : List String :=
  ["type", "start", "end", "value", "raw", "name", "operator", "left", "right", "callee", "arguments", "optional", "argument"]

def layoutMemberObject : List String :=
  ["type", "start", "end", "object", "property", "computed", "name"]


/-! ## Basic computation lemmas and smoke checks -/

@[simp] theorem DR.bind_ok (a : α) (f : α → DR β) : bind (.ok a) f = f a := rfl

@[simp] theorem DR.bind_err (e : DecodeError) (f : α → DR β) :
    bind (.err e) f = .err e := rfl

@[simp] theorem DR.bind_panic (f : α → DR β) : bind (.panic) f = .panic := rfl

@[simp] theorem DR.bind_eq (x : DR α) (f : α → DR β) : x >>= f = bind x f := rfl

@[simp] theorem DR.pure_eq (a : α) : (pure a : DR α) = .ok a := rfl

@[simp] theorem DR.map_ok (f : α → β) (a : α) : f <$> (.ok a : DR α) = .ok (f a) := rfl

@[simp] theorem DR.map_err (f : α → β) (e : DecodeError) :
    f <$> (.err e : DR α) = .err e := rfl

@[simp] theorem DR.map_panic (f : α → β) : f <$> (.panic : DR α) = .panic := rfl

@[simp] theorem DR.mapList_nil (f : α → DR β) : mapList f [] = .ok [] := rfl

@[simp] theorem DR.mapList_cons (f : α → DR β) (a : α) (as' : List α) :
    mapList f (a :: as') = bind (f a) (fun b => bind (mapList f as') (fun bs => .ok (b :: bs))) := rfl

@[simp] theorem map_ok_c (f : α → β) (a : α) : DR.map f (.ok a) = .ok (f a) := rfl

@[simp] theorem map_err_c (f : α → β) (e : DecodeError) :
    DR.map f (.err e) = .err e := rfl

@[simp] theorem map_panic_c (f : α → β) : DR.map f (.panic) = .panic := rfl

example : parseUsize "3" = some 3 := by decide
example : parseUsize "03" = some 3 := by decide
example : parseUsize "+3" = some 3 := by decide
example : parseUsize "-1" = none := by decide
example : parseUsize "abc" = none := by decide
example : parseUsize "" = none := by decide
example : parseUsize "+" = none := by decide
example : natToString 0 = "0" := by decide
example : natToString 35 = "35" := by decide

/-! ## Decimal key round-trip -/

theorem char_toNat_digit {d : Nat} (h : d < 10) :
    (Char.ofNat (d + 48)).toNat = d + 48 := by
  interval_cases d <;> decide

theorem char_isDigit_digit {d : Nat} (h : d < 10) :
    (Char.ofNat (d + 48)).isDigit = true := by
  interval_cases d <;> decide

theorem char_digit_ne_plus {d : Nat} (h : d < 10) :
    Char.ofNat (d + 48) ≠ '+' := by
  interval_cases d <;> decide

theorem natToDigitsAux_eq :
    ∀ fuel n, n ≤ fuel →
      natToDigitsAux fuel n =
        ((Nat.digits 10 n).map (fun d => Char.ofNat (d + 48))).reverse := by
  intro fuel
  induction fuel with
  | zero =>
    intro n hn
    interval_cases n
    simp [natToDigitsAux]
  | succ fuel ih =>
    intro n hn
    by_cases h0 : n = 0
    · subst h0; simp [natToDigitsAux]
    · have hpos : 0 < n := Nat.pos_of_ne_zero h0
      have hdiv : n / 10 ≤ fuel := by
        have : n / 10 < n := Nat.div_lt_self hpos (by norm_num)
        omega
      rw [natToDigitsAux, if_neg h0, ih _ hdiv,
        Nat.digits_def' (by norm_num : (1:Nat) < 10) hpos]
      simp

theorem foldl_digits_val (l : List Nat) (acc : Nat) :
    l.reverse.foldl (fun a d => a * 10 + d) acc =
      acc * 10 ^ l.length + Nat.ofDigits 10 l := by
  induction l generalizing acc with
  | nil => simp
  | cons d l ih =>
    simp only [List.reverse_cons, List.foldl_append, List.foldl_cons,
      List.foldl_nil, ih, Nat.ofDigits_cons, List.length_cons]
    ring

theorem parseUsize_natToString (n : Nat) : parseUsize (natToString n) = some n := by
  by_cases h0 : n = 0
  · subst h0; decide
  · have hpos : 0 < n := Nat.pos_of_ne_zero h0
    have hdig : ∀ d ∈ Nat.digits 10 n, d < 10 := fun d hd =>
      Nat.digits_lt_base (by norm_num) hd
    rw [natToString, if_neg h0]
    rw [parseUsize]
    have hdata : (String.mk (natToDigitsAux n n)).data = natToDigitsAux n n := rfl
    rw [hdata, natToDigitsAux_eq n n le_rfl]
    set l := Nat.digits 10 n with hl
    have hlne : l ≠ [] := by
      rw [hl]
      exact Nat.digits_ne_nil_iff_ne_zero.mpr h0
    have hmem : ∀ c ∈ (l.map (fun d => Char.ofNat (d + 48))).reverse,
        ∃ d ∈ l, c = Char.ofNat (d + 48) := by
      intro c hc
      rw [List.mem_reverse, List.mem_map] at hc
      obtain ⟨d, hd, rfl⟩ := hc
      exact ⟨d, hd, rfl⟩
    -- the character list is nonempty and starts with a digit, not '+'
    obtain ⟨c, cs, hcons⟩ :
        ∃ c cs, (l.map (fun d => Char.ofNat (d + 48))).reverse = c :: cs := by
      cases hrev : (l.map (fun d => Char.ofNat (d + 48))).reverse with
      | nil =>
        exfalso
        apply hlne
        have := congrArg List.reverse hrev
        simpa using this
      | cons c cs => exact ⟨c, cs, rfl⟩
    rw [hcons]
    have hchead : ∃ d ∈ l, c = Char.ofNat (d + 48) := by
      apply hmem
      rw [hcons]; exact List.mem_cons_self c cs
    obtain ⟨d, hd, rfl⟩ := hchead
    have hplus : ¬((Char.ofNat (d + 48) :: cs).head? = some '+') := by
      simp only [List.head?_cons, Option.some.injEq]
      exact char_digit_ne_plus (hdig d hd)
    rw [if_neg hplus]
    have hne : (Char.ofNat (d + 48) :: cs).isEmpty = false := rfl
    rw [hne]
    simp only [Bool.false_eq_true, if_false]
    have halldig : (Char.ofNat (d + 48) :: cs).all (fun c => c.isDigit) = true := by
      rw [← hcons]
      rw [List.all_eq_true]
      intro c hc
      obtain ⟨d', hd', rfl⟩ := hmem c hc
      exact char_isDigit_digit (hdig d' hd')
    rw [halldig]
    simp only [if_true]
    congr 1
    rw [← hcons, ← List.map_reverse, List.foldl_map]
    have hext :
        l.reverse.foldl (fun a d => a * 10 + ((Char.ofNat (d + 48)).toNat - 48)) 0 =
          l.reverse.foldl (fun a d => a * 10 + d) 0 := by
      apply List.foldl_ext
      intro a d hdmem
      rw [List.mem_reverse] at hdmem
      rw [char_toNat_digit (hdig d hdmem)]
      omega
    rw [hext, foldl_digits_val]
    simp [hl, Nat.ofDigits_digits]

/-! ## Decode/encode round-trip: leaves and the non-code registry -/

theorem asNat_natCast (n : Nat) : Json.asNat (.num (n : Int)) = .ok n := by
  simp [Json.asNat]

theorem jlookup_cons_ne {k k0 : String} (v0 : Json) (fs : List (String × Json))
    (h : k ≠ k0) : jlookup k ((k0, v0) :: fs) = jlookup k fs := by
  simp [Json.jlookup, h]

theorem decodeNoneCodeNode_encode (x : NoneCodeNode) :
    decodeNoneCodeNode (encodeNoneCodeNode x) = .ok x := by
  simp [decodeNoneCodeNode, encodeNoneCodeNode, Json.getNat, Json.getStr,
    Json.reqField, Json.jlookup, Json.asObj, Json.asStr, asNat_natCast]

theorem decodeIdentifier_fields (i : Identifier) :
    decodeIdentifier (.obj (identifierFields i)) = .ok i := by
  simp [decodeIdentifier, identifierFields, Json.getNat, Json.getStr,
    Json.reqField, Json.jlookup, Json.asObj, Json.asStr, asNat_natCast]

theorem decodeIdentifier_tagged (t : Json) (i : Identifier) :
    decodeIdentifier (.obj (("type", t) :: identifierFields i)) = .ok i := by
  simp [decodeIdentifier, identifierFields, Json.getNat, Json.getStr,
    Json.reqField, Json.jlookup, Json.asObj, Json.asStr, asNat_natCast]

theorem decodeLiteral_tagged (t : Json) (l : Literal) :
    decodeLiteral (.obj (("type", t) :: literalFields l)) = .ok l := by
  simp [decodeLiteral, literalFields, Json.getNat, Json.getStr,
    Json.reqField, Json.jlookup, Json.asObj, Json.asStr, asNat_natCast]

theorem decodePipeSubstitution_tagged (t : Json) (p : PipeSubstitution) :
    decodePipeSubstitution (.obj (("type", t) :: pipeSubstitutionFields p)) = .ok p := by
  simp [decodePipeSubstitution, pipeSubstitutionFields, Json.getNat,
    Json.reqField, Json.jlookup, Json.asObj, asNat_natCast]

theorem decodeMemberProperty_encode (p : MemberProperty) :
    decodeMemberProperty (encodeMemberProperty p) = .ok p := by
  cases p with
  | identifier i =>
    simp [decodeMemberProperty, encodeMemberProperty, Json.getStr,
      Json.reqField, Json.jlookup, Json.asObj, Json.asStr,
      decodeIdentifier_tagged, DR.map]
  | literal l =>
    simp [decodeMemberProperty, encodeMemberProperty, Json.getStr,
      Json.reqField, Json.jlookup, Json.asObj, Json.asStr,
      decodeLiteral_tagged, DR.map]

theorem keysNodupB_iff (l : List (Nat × NoneCodeNode)) :
    keysNodupB l = true ↔ (l.map Prod.fst).Nodup := by
  induction l with
  | nil => simp [keysNodupB]
  | cons kv rest ih =>
    simp only [keysNodupB, Bool.and_eq_true, Bool.not_eq_true', List.map_cons,
      List.nodup_cons, ih, List.any_eq_false, List.mem_map, beq_eq_false_iff_ne,
      beq_iff_eq, ne_eq]
    constructor
    · rintro ⟨h1, h2⟩
      refine ⟨?_, h2⟩
      rintro ⟨kv2, hmem, heq⟩
      exact h1 kv2 hmem heq
    · rintro ⟨h1, h2⟩
      exact ⟨fun kv2 hmem heq => h1 ⟨kv2, hmem, heq⟩, h2⟩

theorem insertKV_notmem (k : Nat) (v : NoneCodeNode)
    (acc : List (Nat × NoneCodeNode)) (h : ∀ kv ∈ acc, kv.1 ≠ k) :
    insertKV k v acc = acc ++ [(k, v)] := by
  induction acc with
  | nil => rfl
  | cons kv rest ih =>
    have hne : k ≠ kv.1 := fun he => (h kv (by simp)) he.symm
    obtain ⟨k', v'⟩ := kv
    simp only [insertKV, if_neg hne, List.cons_append]
    rw [ih (fun kv2 h2 => h kv2 (by simp [h2]))]

theorem keys_insertKV (k : Nat) (v : NoneCodeNode)
    (acc : List (Nat × NoneCodeNode)) :
    (insertKV k v acc).map Prod.fst =
      if k ∈ acc.map Prod.fst then acc.map Prod.fst
      else acc.map Prod.fst ++ [k] := by
  induction acc with
  | nil => simp [insertKV]
  | cons kv rest ih =>
    obtain ⟨k', v'⟩ := kv
    by_cases hk : k = k'
    · subst hk
      simp [insertKV]
    · simp only [insertKV, if_neg hk, List.map_cons, ih, List.mem_cons]
      by_cases hmem : k ∈ rest.map Prod.fst
      · simp [hmem, hk]
      · simp [hmem, hk]

theorem keysNodupB_insertKV (k : Nat) (v : NoneCodeNode)
    (acc : List (Nat × NoneCodeNode)) (h : keysNodupB acc = true) :
    keysNodupB (insertKV k v acc) = true := by
  rw [keysNodupB_iff] at h ⊢
  rw [keys_insertKV]
  by_cases hmem : k ∈ acc.map Prod.fst
  · simpa [hmem] using h
  · simp only [hmem, if_false]
    rw [List.nodup_append]
    refine ⟨h, List.nodup_singleton k, ?_⟩
    intro a ha hb
    rw [List.mem_singleton] at hb
    exact hmem (hb ▸ ha)

/-- Every `noneCodeNodes` map containing an entry whose key does not parse
as a non-negative integer makes the key-conversion loop panic (the
`unwrap`). -/
theorem buildNoneCodeNodes_panic :
    ∀ (entries : List (String × NoneCodeNode)) acc,
      (∃ kv ∈ entries, parseUsize kv.1 = none) →
      buildNoneCodeNodes entries acc = .panic := by
  intro entries
  induction entries with
  | nil => rintro acc ⟨kv, hmem, _⟩; cases hmem
  | cons kv rest ih =>
    rintro acc ⟨kv2, hmem, hparse⟩
    obtain ⟨k, v⟩ := kv
    rcases List.mem_cons.mp hmem with heq | hmem2
    · subst heq
      simp only [buildNoneCodeNodes, hparse]
    · cases hp : parseUsize k with
      | none => simp [buildNoneCodeNodes, hp]
      | some n =>
        simp only [buildNoneCodeNodes, hp]
        exact ih _ ⟨kv2, hmem2, hparse⟩

/-- If every key parses, the key-conversion loop succeeds and the resulting
registry has pairwise distinct ordinals (the hash map's invariant): at most
one fragment per ordinal, later entries silently overwriting earlier ones. -/
theorem buildNoneCodeNodes_ok :
    ∀ (entries : List (String × NoneCodeNode)) acc,
      (∀ kv ∈ entries, (parseUsize kv.1).isSome = true) →
      keysNodupB acc = true →
      ∃ l, buildNoneCodeNodes entries acc = .ok l ∧ keysNodupB l = true := by
  intro entries
  induction entries with
  | nil => exact fun acc _ hacc => ⟨acc, rfl, hacc⟩
  | cons kv rest ih =>
    intro acc hall hacc
    obtain ⟨k, v⟩ := kv
    have hk : (parseUsize k).isSome = true := hall (k, v) (by simp)
    obtain ⟨n, hn⟩ := Option.isSome_iff_exists.mp hk
    simp only [buildNoneCodeNodes, hn]
    exact ih _ (fun kv2 h2 => hall kv2 (by simp [h2]))
      (keysNodupB_insertKV n v acc hacc)

/-- Building from canonically encoded keys reproduces the original registry
when its ordinals are pairwise distinct. -/
theorem buildNoneCodeNodes_encoded :
    ∀ (nodes acc : List (Nat × NoneCodeNode)),
      keysNodupB (acc ++ nodes) = true →
      buildNoneCodeNodes (nodes.map (fun kv => (natToString kv.1, kv.2))) acc =
        .ok (acc ++ nodes) := by
  intro nodes
  induction nodes with
  | nil => intro acc _; simp [buildNoneCodeNodes]
  | cons kv rest ih =>
    intro acc hnodup
    obtain ⟨k, v⟩ := kv
    simp only [List.map_cons, buildNoneCodeNodes, parseUsize_natToString]
    have hknotin : ∀ kv2 ∈ acc, kv2.1 ≠ k := by
      intro kv2 hmem heq
      rw [keysNodupB_iff] at hnodup
      rw [List.map_append] at hnodup
      rcases List.nodup_append.mp hnodup with ⟨_, _, hdisj⟩
      exact hdisj (List.mem_map_of_mem Prod.fst hmem)
        (by simp [heq])
    rw [insertKV_notmem k v acc hknotin]
    have : acc ++ [(k, v)] ++ rest = acc ++ (k, v) :: rest := by
      simp
    rw [ih (acc ++ [(k, v)]) (by rw [this]; exact hnodup), this]

theorem getOpt_encodedOpt (fs : List (String × Json)) (k : String)
    (o : Option NoneCodeNode)
    (hf : jlookup k fs = some (encodeOptNoneCodeNode o)) :
    Json.getOpt fs k decodeNoneCodeNode = .ok o := by
  cases o with
  | none => simp [Json.getOpt, hf, encodeOptNoneCodeNode]
  | some n =>
    simp [Json.getOpt, hf, encodeOptNoneCodeNode, encodeNoneCodeNode]
    have := decodeNoneCodeNode_encode n
    simp [encodeNoneCodeNode] at this
    simp [this, map_ok_c]

theorem mapList_encoded_entries (nodes : List (Nat × NoneCodeNode)) :
    DR.mapList
      (fun kv => (decodeNoneCodeNode kv.2).map (fun n => (kv.1, n)))
      (nodes.map (fun kv => (natToString kv.1, encodeNoneCodeNode kv.2))) =
      .ok (nodes.map (fun kv => (natToString kv.1, kv.2))) := by
  induction nodes with
  | nil => rfl
  | cons kv rest ih =>
    simp only [List.map_cons, DR.mapList_cons]
    rw [decodeNoneCodeNode_encode kv.2, map_ok_c, DR.bind_ok, ih, DR.bind_ok]

/-- Round-trip for the non-code registry: decoding the encoding of any
well-formed `NoneCodeMeta` gives it back. -/
theorem decodeNoneCodeMeta_encode (m : NoneCodeMeta)
    (h : wfNoneCodeMeta m = true) :
    decodeNoneCodeMeta (encodeNoneCodeMeta m) = .ok m := by
  obtain ⟨nodes, startO⟩ := m
  have hbuild := buildNoneCodeNodes_encoded nodes [] (by simpa [wfNoneCodeMeta] using h)
  simp only [List.nil_append] at hbuild
  have hstart : Json.getOpt
      [("noneCodeNodes",
         Json.obj (nodes.map (fun kv => (natToString kv.1, encodeNoneCodeNode kv.2)))),
       ("start", encodeOptNoneCodeNode startO)] "start" decodeNoneCodeNode =
      .ok startO :=
    getOpt_encodedOpt _ _ _ (by simp [Json.jlookup])
  simp [decodeNoneCodeMeta, encodeNoneCodeMeta, Json.asObj, Json.reqField,
    Json.jlookup, hstart, hbuild, mapList_encoded_entries]

theorem getOpt_encIdent (fs : List (String × Json)) (k : String)
    (o : Option Identifier)
    (hf : jlookup k fs = some (encodeOptIdentifier o)) :
    Json.getOpt fs k decodeIdentifier = .ok o := by
  cases o with
  | none => simp [Json.getOpt, hf, encodeOptIdentifier]
  | some i =>
    simp [Json.getOpt, hf, encodeOptIdentifier, decodeIdentifier_fields]

theorem mapList_identifiers (is : List Identifier) :
    DR.mapList decodeIdentifier
      (is.map (fun i => Json.obj (identifierFields i))) = .ok is := by
  induction is with
  | nil => rfl
  | cons i rest ih => simp [DR.mapList, decodeIdentifier_fields, ih]

/-! ## Decode/encode round-trip for the recursive node families -/

set_option maxHeartbeats 2000000 in
mutual

theorem rt_bodyItem (b : BodyItem) :
    ∀ fuel, wfBodyItem b = true → fuelBodyItem b ≤ fuel →
      decodeBodyItemF fuel (encodeBodyItem b) = .ok b := by
  intro fuel hwf hfuel
  cases b with
  | expressionStatement e =>
    simp only [fuelBodyItem] at hfuel
    cases fuel with
    | zero => omega
    | succ f =>
      have h1 : fuelExpressionStatement e ≤ f := by omega
      have h2 : wfExpressionStatement e = true := by
        simpa [wfBodyItem] using hwf
      simp [encodeBodyItem, decodeBodyItemF, Json.asObj, Json.getStr,
        Json.reqField, Json.jlookup, Json.asStr,
        rt_expressionStatement e _ f h2 h1]
  | variableDeclaration v =>
    simp only [fuelBodyItem] at hfuel
    cases fuel with
    | zero => omega
    | succ f =>
      have h1 : fuelVariableDeclaration v ≤ f := by omega
      have h2 : wfVariableDeclaration v = true := by
        simpa [wfBodyItem] using hwf
      simp [encodeBodyItem, decodeBodyItemF, Json.asObj, Json.getStr,
        Json.reqField, Json.jlookup, Json.asStr,
        rt_variableDeclaration v _ f h2 h1]
  | returnStatement r =>
    simp only [fuelBodyItem] at hfuel
    cases fuel with
    | zero => omega
    | succ f =>
      have h1 : fuelReturnStatement r ≤ f := by omega
      have h2 : wfReturnStatement r = true := by
        simpa [wfBodyItem] using hwf
      simp [encodeBodyItem, decodeBodyItemF, Json.asObj, Json.getStr,
        Json.reqField, Json.jlookup, Json.asStr,
        rt_returnStatement r _ f h2 h1]

theorem rt_bodyItems (bs : List BodyItem) :
    ∀ fuel, wfBodyItems bs = true → fuelBodyItems bs ≤ fuel →
      decodeBodyItemsF fuel (encodeBodyItems bs) = .ok bs := by
  intro fuel hwf hfuel
  cases bs with
  | nil => cases fuel <;> rfl
  | cons b rest =>
    simp only [fuelBodyItems] at hfuel
    cases fuel with
    | zero => omega
    | succ f =>
      have hwf1 : wfBodyItem b = true := by
        simp [wfBodyItems, Bool.and_eq_true] at hwf; exact hwf.1
      have hwf2 : wfBodyItems rest = true := by
        simp [wfBodyItems, Bool.and_eq_true] at hwf; exact hwf.2
      simp [encodeBodyItems, decodeBodyItemsF,
        rt_bodyItem b f hwf1 (by omega),
        rt_bodyItems rest f hwf2 (by omega)]

theorem rt_expressionStatement (e : ExpressionStatement) :
    ∀ (t : Json) fuel, wfExpressionStatement e = true →
      fuelExpressionStatement e ≤ fuel →
      decodeExpressionStatementF fuel
        (.obj (("type", t) :: expressionStatementFields e)) = .ok e := by
  obtain ⟨s, e_, v⟩ := e
  intro t fuel hwf hfuel
  simp only [fuelExpressionStatement] at hfuel
  cases fuel with
  | zero => omega
  | succ f =>
    have h1 : fuelValue v ≤ f := by omega
    have h2 : wfValue v = true := by simpa [wfExpressionStatement] using hwf
    simp [decodeExpressionStatementF, expressionStatementFields, Json.asObj,
      Json.getNat, Json.reqField, Json.jlookup, asNat_natCast,
      rt_value v f h2 h1]

theorem rt_variableDeclaration (v : VariableDeclaration) :
    ∀ (t : Json) fuel, wfVariableDeclaration v = true →
      fuelVariableDeclaration v ≤ fuel →
      decodeVariableDeclarationF fuel
        (.obj (("type", t) :: variableDeclarationFields v)) = .ok v := by
  obtain ⟨s, e_, ds, kind⟩ := v
  intro t fuel hwf hfuel
  simp only [fuelVariableDeclaration] at hfuel
  cases fuel with
  | zero => omega
  | succ f =>
    have h1 : fuelDeclarators ds ≤ f := by omega
    have h2 : wfDeclarators ds = true := by simpa [wfVariableDeclaration] using hwf
    simp [decodeVariableDeclarationF, variableDeclarationFields, Json.asObj,
      Json.getNat, Json.getStr, Json.reqField, Json.jlookup, Json.asArr,
      Json.asStr, asNat_natCast, rt_declarators ds f h2 h1]

theorem rt_declarators (ds : List VariableDeclarator) :
    ∀ fuel, wfDeclarators ds = true → fuelDeclarators ds ≤ fuel →
      decodeDeclaratorsF fuel (encodeDeclarators ds) = .ok ds := by
  intro fuel hwf hfuel
  cases ds with
  | nil => cases fuel <;> rfl
  | cons d rest =>
    simp only [fuelDeclarators] at hfuel
    cases fuel with
    | zero => omega
    | succ f =>
      have hwf1 : wfVariableDeclarator d = true := by
        simp [wfDeclarators, Bool.and_eq_true] at hwf; exact hwf.1
      have hwf2 : wfDeclarators rest = true := by
        simp [wfDeclarators, Bool.and_eq_true] at hwf; exact hwf.2
      simp [encodeDeclarators, decodeDeclaratorsF,
        rt_variableDeclarator d f hwf1 (by omega),
        rt_declarators rest f hwf2 (by omega)]

theorem rt_variableDeclarator (d : VariableDeclarator) :
    ∀ fuel, wfVariableDeclarator d = true → fuelVariableDeclarator d ≤ fuel →
      decodeVariableDeclaratorF fuel (.obj (variableDeclaratorFields d)) = .ok d := by
  obtain ⟨s, e_, id, init⟩ := d
  intro fuel hwf hfuel
  simp only [fuelVariableDeclarator] at hfuel
  cases fuel with
  | zero => omega
  | succ f =>
    have h1 : fuelValue init ≤ f := by omega
    have h2 : wfValue init = true := by simpa [wfVariableDeclarator] using hwf
    simp [decodeVariableDeclaratorF, variableDeclaratorFields, Json.asObj,
      Json.getNat, Json.reqField, Json.jlookup, asNat_natCast,
      decodeIdentifier_fields, rt_value init f h2 h1]

theorem rt_returnStatement (r : ReturnStatement) :
    ∀ (t : Json) fuel, wfReturnStatement r = true →
      fuelReturnStatement r ≤ fuel →
      decodeReturnStatementF fuel
        (.obj (("type", t) :: returnStatementFields r)) = .ok r := by
  obtain ⟨s, e_, arg⟩ := r
  intro t fuel hwf hfuel
  simp only [fuelReturnStatement] at hfuel
  cases fuel with
  | zero => omega
  | succ f =>
    have h1 : fuelValue arg ≤ f := by omega
    have h2 : wfValue arg = true := by simpa [wfReturnStatement] using hwf
    simp [decodeReturnStatementF, returnStatementFields, Json.asObj,
      Json.getNat, Json.reqField, Json.jlookup, asNat_natCast,
      rt_value arg f h2 h1]

theorem rt_value (v : Value) :
    ∀ fuel, wfValue v = true → fuelValue v ≤ fuel →
      decodeValueF fuel (encodeValue v) = .ok v := by
  intro fuel hwf hfuel
  cases v with
  | literal l =>
    cases fuel with
    | zero => simp [fuelValue] at hfuel
    | succ f =>
      simp [encodeValue, decodeValueF, Json.asObj, Json.getStr, Json.reqField,
        Json.jlookup, Json.asStr, decodeLiteral_tagged]
  | identifier i =>
    cases fuel with
    | zero => simp [fuelValue] at hfuel
    | succ f =>
      simp [encodeValue, decodeValueF, Json.asObj, Json.getStr, Json.reqField,
        Json.jlookup, Json.asStr, decodeIdentifier_tagged]
  | pipeSubstitution p =>
    cases fuel with
    | zero => simp [fuelValue] at hfuel
    | succ f =>
      simp [encodeValue, decodeValueF, Json.asObj, Json.getStr, Json.reqField,
        Json.jlookup, Json.asStr, decodePipeSubstitution_tagged]
  | binaryExpression b =>
    simp only [fuelValue] at hfuel
    cases fuel with
    | zero => omega
    | succ f =>
      have h2 : wfBinaryExpression b = true := by simpa [wfValue] using hwf
      simp [encodeValue, decodeValueF, Json.asObj, Json.getStr, Json.reqField,
        Json.jlookup, Json.asStr, rt_binaryExpression b _ f h2 (by omega)]
  | functionExpression fe =>
    simp only [fuelValue] at hfuel
    cases fuel with
    | zero => omega
    | succ f =>
      have h2 : wfFunctionExpression fe = true := by simpa [wfValue] using hwf
      simp [encodeValue, decodeValueF, Json.asObj, Json.getStr, Json.reqField,
        Json.jlookup, Json.asStr, rt_functionExpression fe _ f h2 (by omega)]
  | callExpression c =>
    simp only [fuelValue] at hfuel
    cases fuel with
    | zero => omega
    | succ f =>
      have h2 : wfCallExpression c = true := by simpa [wfValue] using hwf
      simp [encodeValue, decodeValueF, Json.asObj, Json.getStr, Json.reqField,
        Json.jlookup, Json.asStr, rt_callExpression c _ f h2 (by omega)]
  | pipeExpression p =>
    simp only [fuelValue] at hfuel
    cases fuel with
    | zero => omega
    | succ f =>
      have h2 : wfPipeExpression p = true := by simpa [wfValue] using hwf
      simp [encodeValue, decodeValueF, Json.asObj, Json.getStr, Json.reqField,
        Json.jlookup, Json.asStr, rt_pipeExpression p _ f h2 (by omega)]
  | arrayExpression a =>
    simp only [fuelValue] at hfuel
    cases fuel with
    | zero => omega
    | succ f =>
      have h2 : wfArrayExpression a = true := by simpa [wfValue] using hwf
      simp [encodeValue, decodeValueF, Json.asObj, Json.getStr, Json.reqField,
        Json.jlookup, Json.asStr, rt_arrayExpression a _ f h2 (by omega)]
  | objectExpression o =>
    simp only [fuelValue] at hfuel
    cases fuel with
    | zero => omega
    | succ f =>
      have h2 : wfObjectExpression o = true := by simpa [wfValue] using hwf
      simp [encodeValue, decodeValueF, Json.asObj, Json.getStr, Json.reqField,
        Json.jlookup, Json.asStr, rt_objectExpression o _ f h2 (by omega)]
  | memberExpression m =>
    simp only [fuelValue] at hfuel
    cases fuel with
    | zero => omega
    | succ f =>
      have h2 : wfMemberExpression m = true := by simpa [wfValue] using hwf
      simp [encodeValue, decodeValueF, Json.asObj, Json.getStr, Json.reqField,
        Json.jlookup, Json.asStr, rt_memberExpression m _ f h2 (by omega)]
  | unaryExpression u =>
    simp only [fuelValue] at hfuel
    cases fuel with
    | zero => omega
    | succ f =>
      have h2 : wfUnaryExpression u = true := by simpa [wfValue] using hwf
      simp [encodeValue, decodeValueF, Json.asObj, Json.getStr, Json.reqField,
        Json.jlookup, Json.asStr, rt_unaryExpression u _ f h2 (by omega)]

theorem rt_values (vs : List Value) :
    ∀ fuel, wfValues vs = true → fuelValues vs ≤ fuel →
      decodeValuesF fuel (encodeValues vs) = .ok vs := by
  intro fuel hwf hfuel
  cases vs with
  | nil => cases fuel <;> rfl
  | cons v rest =>
    simp only [fuelValues] at hfuel
    cases fuel with
    | zero => omega
    | succ f =>
      have hwf1 : wfValue v = true := by
        simp [wfValues, Bool.and_eq_true] at hwf; exact hwf.1
      have hwf2 : wfValues rest = true := by
        simp [wfValues, Bool.and_eq_true] at hwf; exact hwf.2
      simp [encodeValues, decodeValuesF, rt_value v f hwf1 (by omega),
        rt_values rest f hwf2 (by omega)]

theorem rt_binaryPart (bp : BinaryPart) :
    ∀ fuel, wfBinaryPart bp = true → fuelBinaryPart bp ≤ fuel →
      decodeBinaryPartF fuel (encodeBinaryPart bp) = .ok bp := by
  intro fuel hwf hfuel
  cases bp with
  | literal l =>
    cases fuel with
    | zero => simp [fuelBinaryPart] at hfuel
    | succ f =>
      simp [encodeBinaryPart, decodeBinaryPartF, Json.asObj, Json.getStr,
        Json.reqField, Json.jlookup, Json.asStr, decodeLiteral_tagged]
  | identifier i =>
    cases fuel with
    | zero => simp [fuelBinaryPart] at hfuel
    | succ f =>
      simp [encodeBinaryPart, decodeBinaryPartF, Json.asObj, Json.getStr,
        Json.reqField, Json.jlookup, Json.asStr, decodeIdentifier_tagged]
  | binaryExpression b =>
    simp only [fuelBinaryPart] at hfuel
    cases fuel with
    | zero => omega
    | succ f =>
      have h2 : wfBinaryExpression b = true := by simpa [wfBinaryPart] using hwf
      simp [encodeBinaryPart, decodeBinaryPartF, Json.asObj, Json.getStr,
        Json.reqField, Json.jlookup, Json.asStr,
        rt_binaryExpression b _ f h2 (by omega)]
  | callExpression c =>
    simp only [fuelBinaryPart] at hfuel
    cases fuel with
    | zero => omega
    | succ f =>
      have h2 : wfCallExpression c = true := by simpa [wfBinaryPart] using hwf
      simp [encodeBinaryPart, decodeBinaryPartF, Json.asObj, Json.getStr,
        Json.reqField, Json.jlookup, Json.asStr,
        rt_callExpression c _ f h2 (by omega)]
  | unaryExpression u =>
    simp only [fuelBinaryPart] at hfuel
    cases fuel with
    | zero => omega
    | succ f =>
      have h2 : wfUnaryExpression u = true := by simpa [wfBinaryPart] using hwf
      simp [encodeBinaryPart, decodeBinaryPartF, Json.asObj, Json.getStr,
        Json.reqField, Json.jlookup, Json.asStr,
        rt_unaryExpression u _ f h2 (by omega)]

theorem rt_callExpression (c : CallExpression) :
    ∀ (t : Json) fuel, wfCallExpression c = true → fuelCallExpression c ≤ fuel →
      decodeCallExpressionF fuel (.obj (("type", t) :: callExpressionFields c)) = .ok c := by
  obtain ⟨s, e_, callee, args, opt⟩ := c
  intro t fuel hwf hfuel
  simp only [fuelCallExpression] at hfuel
  cases fuel with
  | zero => omega
  | succ f =>
    have h1 : fuelValues args ≤ f := by omega
    have h2 : wfValues args = true := by simpa [wfCallExpression] using hwf
    simp [decodeCallExpressionF, callExpressionFields, Json.asObj, Json.getNat,
      Json.getBool, Json.reqField, Json.jlookup, Json.asArr, Json.asBool,
      asNat_natCast, decodeIdentifier_fields, rt_values args f h2 h1]

theorem rt_binaryExpression (b : BinaryExpression) :
    ∀ (t : Json) fuel, wfBinaryExpression b = true →
      fuelBinaryExpression b ≤ fuel →
      decodeBinaryExpressionF fuel
        (.obj (("type", t) :: binaryExpressionFields b)) = .ok b := by
  obtain ⟨s, e_, op, l, r⟩ := b
  intro t fuel hwf hfuel
  simp only [fuelBinaryExpression] at hfuel
  cases fuel with
  | zero => omega
  | succ f =>
    have hwf' : wfBinaryPart l = true ∧ wfBinaryPart r = true := by
      simpa [wfBinaryExpression, Bool.and_eq_true] using hwf
    simp [decodeBinaryExpressionF, binaryExpressionFields, Json.asObj,
      Json.getNat, Json.getStr, Json.reqField, Json.jlookup, Json.asStr,
      asNat_natCast, rt_binaryPart l f hwf'.1 (by omega),
      rt_binaryPart r f hwf'.2 (by omega)]

theorem rt_unaryExpression (u : UnaryExpression) :
    ∀ (t : Json) fuel, wfUnaryExpression u = true →
      fuelUnaryExpression u ≤ fuel →
      decodeUnaryExpressionF fuel
        (.obj (("type", t) :: unaryExpressionFields u)) = .ok u := by
  obtain ⟨s, e_, op, arg⟩ := u
  intro t fuel hwf hfuel
  simp only [fuelUnaryExpression] at hfuel
  cases fuel with
  | zero => omega
  | succ f =>
    have h2 : wfBinaryPart arg = true := by simpa [wfUnaryExpression] using hwf
    simp [decodeUnaryExpressionF, unaryExpressionFields, Json.asObj,
      Json.getNat, Json.getStr, Json.reqField, Json.jlookup, Json.asStr,
      asNat_natCast, rt_binaryPart arg f h2 (by omega)]

theorem rt_pipeExpression (p : PipeExpression) :
    ∀ (t : Json) fuel, wfPipeExpression p = true → fuelPipeExpression p ≤ fuel →
      decodePipeExpressionF fuel
        (.obj (("type", t) :: pipeExpressionFields p)) = .ok p := by
  obtain ⟨s, e_, body, ncm⟩ := p
  intro t fuel hwf hfuel
  simp only [fuelPipeExpression] at hfuel
  cases fuel with
  | zero => omega
  | succ f =>
    have hwf' : wfValues body = true ∧ wfNoneCodeMeta ncm = true := by
      simpa [wfPipeExpression, Bool.and_eq_true] using hwf
    simp [decodePipeExpressionF, pipeExpressionFields, Json.asObj, Json.getNat,
      Json.reqField, Json.jlookup, Json.asArr, asNat_natCast,
      rt_values body f hwf'.1 (by omega),
      decodeNoneCodeMeta_encode ncm hwf'.2]

theorem rt_arrayExpression (a : ArrayExpression) :
    ∀ (t : Json) fuel, wfArrayExpression a = true →
      fuelArrayExpression a ≤ fuel →
      decodeArrayExpressionF fuel
        (.obj (("type", t) :: arrayExpressionFields a)) = .ok a := by
  obtain ⟨s, e_, els⟩ := a
  intro t fuel hwf hfuel
  simp only [fuelArrayExpression] at hfuel
  cases fuel with
  | zero => omega
  | succ f =>
    have h2 : wfValues els = true := by simpa [wfArrayExpression] using hwf
    simp [decodeArrayExpressionF, arrayExpressionFields, Json.asObj,
      Json.getNat, Json.reqField, Json.jlookup, Json.asArr, asNat_natCast,
      rt_values els f h2 (by omega)]

theorem rt_objectExpression (o : ObjectExpression) :
    ∀ (t : Json) fuel, wfObjectExpression o = true →
      fuelObjectExpression o ≤ fuel →
      decodeObjectExpressionF fuel
        (.obj (("type", t) :: objectExpressionFields o)) = .ok o := by
  obtain ⟨s, e_, props⟩ := o
  intro t fuel hwf hfuel
  simp only [fuelObjectExpression] at hfuel
  cases fuel with
  | zero => omega
  | succ f =>
    have h2 : wfObjectProperties props = true := by
      simpa [wfObjectExpression] using hwf
    simp [decodeObjectExpressionF, objectExpressionFields, Json.asObj,
      Json.getNat, Json.reqField, Json.jlookup, Json.asArr, asNat_natCast,
      rt_objectProperties props f h2 (by omega)]

theorem rt_objectProperties (ps : List ObjectProperty) :
    ∀ fuel, wfObjectProperties ps = true → fuelObjectProperties ps ≤ fuel →
      decodeObjectPropertiesF fuel (encodeObjectProperties ps) = .ok ps := by
  intro fuel hwf hfuel
  cases ps with
  | nil => cases fuel <;> rfl
  | cons p rest =>
    simp only [fuelObjectProperties] at hfuel
    cases fuel with
    | zero => omega
    | succ f =>
      have hwf1 : wfObjectProperty p = true := by
        simp [wfObjectProperties, Bool.and_eq_true] at hwf; exact hwf.1
      have hwf2 : wfObjectProperties rest = true := by
        simp [wfObjectProperties, Bool.and_eq_true] at hwf; exact hwf.2
      simp [encodeObjectProperties, decodeObjectPropertiesF,
        rt_objectProperty p f hwf1 (by omega),
        rt_objectProperties rest f hwf2 (by omega)]

theorem rt_objectProperty (p : ObjectProperty) :
    ∀ fuel, wfObjectProperty p = true → fuelObjectProperty p ≤ fuel →
      decodeObjectPropertyF fuel (.obj (objectPropertyFields p)) = .ok p := by
  obtain ⟨s, e_, key, v⟩ := p
  intro fuel hwf hfuel
  simp only [fuelObjectProperty] at hfuel
  cases fuel with
  | zero => omega
  | succ f =>
    have h2 : wfValue v = true := by simpa [wfObjectProperty] using hwf
    simp [decodeObjectPropertyF, objectPropertyFields, Json.asObj, Json.getNat,
      Json.reqField, Json.jlookup, asNat_natCast, decodeIdentifier_fields,
      rt_value v f h2 (by omega)]

theorem rt_memberObject (mo : MemberObject) :
    ∀ fuel, wfMemberObject mo = true → fuelMemberObject mo ≤ fuel →
      decodeMemberObjectF fuel (encodeMemberObject mo) = .ok mo := by
  intro fuel hwf hfuel
  cases mo with
  | identifier i =>
    cases fuel with
    | zero => simp [fuelMemberObject] at hfuel
    | succ f =>
      simp [encodeMemberObject, decodeMemberObjectF, Json.asObj, Json.getStr,
        Json.reqField, Json.jlookup, Json.asStr, decodeIdentifier_tagged]
  | memberExpression m =>
    simp only [fuelMemberObject] at hfuel
    cases fuel with
    | zero => omega
    | succ f =>
      have h2 : wfMemberExpression m = true := by simpa [wfMemberObject] using hwf
      simp [encodeMemberObject, decodeMemberObjectF, Json.asObj, Json.getStr,
        Json.reqField, Json.jlookup, Json.asStr,
        rt_memberExpression m _ f h2 (by omega)]

theorem rt_memberExpression (m : MemberExpression) :
    ∀ (t : Json) fuel, wfMemberExpression m = true →
      fuelMemberExpression m ≤ fuel →
      decodeMemberExpressionF fuel
        (.obj (("type", t) :: memberExpressionFields m)) = .ok m := by
  obtain ⟨s, e_, obj, prop, comp⟩ := m
  intro t fuel hwf hfuel
  simp only [fuelMemberExpression] at hfuel
  cases fuel with
  | zero => omega
  | succ f =>
    have h2 : wfMemberObject obj = true := by simpa [wfMemberExpression] using hwf
    simp [decodeMemberExpressionF, memberExpressionFields, Json.asObj,
      Json.getNat, Json.getBool, Json.reqField, Json.jlookup, Json.asBool,
      asNat_natCast, rt_memberObject obj f h2 (by omega),
      decodeMemberProperty_encode]

theorem rt_functionExpression (fe : FunctionExpression) :
    ∀ (t : Json) fuel, wfFunctionExpression fe = true →
      fuelFunctionExpression fe ≤ fuel →
      decodeFunctionExpressionF fuel
        (.obj (("type", t) :: functionExpressionFields fe)) = .ok fe := by
  obtain ⟨s, e_, id, params, body⟩ := fe
  intro t fuel hwf hfuel
  simp only [fuelFunctionExpression] at hfuel
  cases fuel with
  | zero => omega
  | succ f =>
    have h2 : wfBlockStatement body = true := by
      simpa [wfFunctionExpression] using hwf
    have hid : Json.getOpt
        (("type", t) ::
          [("start", Json.num s), ("end", Json.num e_),
           ("id", encodeOptIdentifier id),
           ("params", Json.arr (params.map (fun i => Json.obj (identifierFields i)))),
           ("body", Json.obj (blockStatementFields body))])
        "id" decodeIdentifier = .ok id :=
      getOpt_encIdent _ _ _ (by simp [Json.jlookup])
    simp [decodeFunctionExpressionF, functionExpressionFields, Json.asObj,
      Json.getNat, Json.reqField, Json.jlookup, Json.asArr, asNat_natCast,
      hid, mapList_identifiers, rt_blockStatement body f h2 (by omega)]

theorem rt_blockStatement (b : BlockStatement) :
    ∀ fuel, wfBlockStatement b = true → fuelBlockStatement b ≤ fuel →
      decodeBlockStatementF fuel (.obj (blockStatementFields b)) = .ok b := by
  obtain ⟨s, e_, body, ncm⟩ := b
  intro fuel hwf hfuel
  simp only [fuelBlockStatement] at hfuel
  cases fuel with
  | zero => omega
  | succ f =>
    have hwf' : wfBodyItems body = true ∧ wfNoneCodeMeta ncm = true := by
      simpa [wfBlockStatement, Bool.and_eq_true] using hwf
    simp [decodeBlockStatementF, blockStatementFields, Json.asObj, Json.getNat,
      Json.reqField, Json.jlookup, Json.asArr, asNat_natCast,
      rt_bodyItems body f hwf'.1 (by omega),
      decodeNoneCodeMeta_encode ncm hwf'.2]

end

/-- Round-trip for `Program` at any sufficient fuel. -/
theorem rt_program (p : Program) (h : wfProgram p = true) :
    ∀ fuel, fuelProgram p ≤ fuel →
      decodeProgramF fuel (encodeProgram p) = .ok p := by
  obtain ⟨s, e_, body, ncm⟩ := p
  intro fuel hfuel
  have hwf' : wfBodyItems body = true ∧ wfNoneCodeMeta ncm = true := by
    simpa [wfProgram, Bool.and_eq_true] using h
  simp only [fuelProgram] at hfuel
  simp [decodeProgramF, encodeProgram, Json.asObj, Json.getNat, Json.reqField,
    Json.jlookup, Json.asArr, asNat_natCast,
    rt_bodyItems body fuel hwf'.1 hfuel,
    decodeNoneCodeMeta_encode ncm hwf'.2]

/-! ## The entry-point fuel (document size) is always sufficient -/

mutual

theorem fsz_bodyItem (b : BodyItem) :
    fuelBodyItem b ≤ Json.size (encodeBodyItem b) := by
  cases b with
  | expressionStatement e =>
    have h := fsz_expressionStatement e
    simp only [Json.size] at h
    simp only [fuelBodyItem, encodeBodyItem, Json.size, Json.sizeFields]
    omega
  | variableDeclaration v =>
    have h := fsz_variableDeclaration v
    simp only [Json.size] at h
    simp only [fuelBodyItem, encodeBodyItem, Json.size, Json.sizeFields]
    omega
  | returnStatement r =>
    have h := fsz_returnStatement r
    simp only [Json.size] at h
    simp only [fuelBodyItem, encodeBodyItem, Json.size, Json.sizeFields]
    omega

theorem fsz_bodyItems (bs : List BodyItem) :
    fuelBodyItems bs ≤ Json.sizeList (encodeBodyItems bs) := by
  cases bs with
  | nil => simp [fuelBodyItems, encodeBodyItems, Json.sizeList]
  | cons b rest =>
    have h1 := fsz_bodyItem b
    have h2 := fsz_bodyItems rest
    simp only [fuelBodyItems, encodeBodyItems, Json.sizeList]
    omega

theorem fsz_expressionStatement (e : ExpressionStatement) :
    fuelExpressionStatement e ≤ Json.size (.obj (expressionStatementFields e)) := by
  obtain ⟨s, e_, v⟩ := e
  have h := fsz_value v
  simp only [fuelExpressionStatement, expressionStatementFields, Json.size,
    Json.sizeFields]
  omega

theorem fsz_variableDeclaration (v : VariableDeclaration) :
    fuelVariableDeclaration v ≤ Json.size (.obj (variableDeclarationFields v)) := by
  obtain ⟨s, e_, ds, kind⟩ := v
  have h := fsz_declarators ds
  simp only [fuelVariableDeclaration, variableDeclarationFields, Json.size,
    Json.sizeFields]
  omega

theorem fsz_declarators (ds : List VariableDeclarator) :
    fuelDeclarators ds ≤ Json.sizeList (encodeDeclarators ds) := by
  cases ds with
  | nil => simp [fuelDeclarators, encodeDeclarators, Json.sizeList]
  | cons d rest =>
    have h1 := fsz_variableDeclarator d
    have h2 := fsz_declarators rest
    simp only [Json.size] at h1
    simp only [fuelDeclarators, encodeDeclarators, Json.sizeList, Json.size]
    omega

theorem fsz_variableDeclarator (d : VariableDeclarator) :
    fuelVariableDeclarator d ≤ Json.size (.obj (variableDeclaratorFields d)) := by
  obtain ⟨s, e_, id, init⟩ := d
  have h := fsz_value init
  simp only [fuelVariableDeclarator, variableDeclaratorFields, Json.size,
    Json.sizeFields]
  omega

theorem fsz_returnStatement (r : ReturnStatement) :
    fuelReturnStatement r ≤ Json.size (.obj (returnStatementFields r)) := by
  obtain ⟨s, e_, arg⟩ := r
  have h := fsz_value arg
  simp only [fuelReturnStatement, returnStatementFields, Json.size,
    Json.sizeFields]
  omega

theorem fsz_value (v : Value) : fuelValue v ≤ Json.size (encodeValue v) := by
  cases v with
  | literal l =>
    simp [fuelValue, encodeValue, Json.size, Json.sizeFields]
  | identifier i =>
    simp [fuelValue, encodeValue, Json.size, Json.sizeFields]
  | pipeSubstitution p =>
    simp [fuelValue, encodeValue, Json.size, Json.sizeFields]
  | binaryExpression b =>
    have h := fsz_binaryExpression b
    simp only [Json.size] at h
    simp only [fuelValue, encodeValue, Json.size, Json.sizeFields]
    omega
  | functionExpression fe =>
    have h := fsz_functionExpression fe
    simp only [Json.size] at h
    simp only [fuelValue, encodeValue, Json.size, Json.sizeFields]
    omega
  | callExpression c =>
    have h := fsz_callExpression c
    simp only [Json.size] at h
    simp only [fuelValue, encodeValue, Json.size, Json.sizeFields]
    omega
  | pipeExpression p =>
    have h := fsz_pipeExpression p
    simp only [Json.size] at h
    simp only [fuelValue, encodeValue, Json.size, Json.sizeFields]
    omega
  | arrayExpression a =>
    have h := fsz_arrayExpression a
    simp only [Json.size] at h
    simp only [fuelValue, encodeValue, Json.size, Json.sizeFields]
    omega
  | objectExpression o =>
    have h := fsz_objectExpression o
    simp only [Json.size] at h
    simp only [fuelValue, encodeValue, Json.size, Json.sizeFields]
    omega
  | memberExpression m =>
    have h := fsz_memberExpression m
    simp only [Json.size] at h
    simp only [fuelValue, encodeValue, Json.size, Json.sizeFields]
    omega
  | unaryExpression u =>
    have h := fsz_unaryExpression u
    simp only [Json.size] at h
    simp only [fuelValue, encodeValue, Json.size, Json.sizeFields]
    omega

theorem fsz_values (vs : List Value) :
    fuelValues vs ≤ Json.sizeList (encodeValues vs) := by
  cases vs with
  | nil => simp [fuelValues, encodeValues, Json.sizeList]
  | cons v rest =>
    have h1 := fsz_value v
    have h2 := fsz_values rest
    simp only [fuelValues, encodeValues, Json.sizeList]
    omega

theorem fsz_binaryPart (bp : BinaryPart) :
    fuelBinaryPart bp ≤ Json.size (encodeBinaryPart bp) := by
  cases bp with
  | literal l =>
    simp [fuelBinaryPart, encodeBinaryPart, Json.size, Json.sizeFields]
  | identifier i =>
    simp [fuelBinaryPart, encodeBinaryPart, Json.size, Json.sizeFields]
  | binaryExpression b =>
    have h := fsz_binaryExpression b
    simp only [Json.size] at h
    simp only [fuelBinaryPart, encodeBinaryPart, Json.size, Json.sizeFields]
    omega
  | callExpression c =>
    have h := fsz_callExpression c
    simp only [Json.size] at h
    simp only [fuelBinaryPart, encodeBinaryPart, Json.size, Json.sizeFields]
    omega
  | unaryExpression u =>
    have h := fsz_unaryExpression u
    simp only [Json.size] at h
    simp only [fuelBinaryPart, encodeBinaryPart, Json.size, Json.sizeFields]
    omega

theorem fsz_callExpression (c : CallExpression) :
    fuelCallExpression c ≤ Json.size (.obj (callExpressionFields c)) := by
  obtain ⟨s, e_, callee, args, opt⟩ := c
  have h := fsz_values args
  simp only [fuelCallExpression, callExpressionFields, Json.size,
    Json.sizeFields]
  omega

theorem fsz_binaryExpression (b : BinaryExpression) :
    fuelBinaryExpression b ≤ Json.size (.obj (binaryExpressionFields b)) := by
  obtain ⟨s, e_, op, l, r⟩ := b
  have h1 := fsz_binaryPart l
  have h2 := fsz_binaryPart r
  simp only [fuelBinaryExpression, binaryExpressionFields, Json.size,
    Json.sizeFields]
  omega

theorem fsz_unaryExpression (u : UnaryExpression) :
    fuelUnaryExpression u ≤ Json.size (.obj (unaryExpressionFields u)) := by
  obtain ⟨s, e_, op, arg⟩ := u
  have h := fsz_binaryPart arg
  simp only [fuelUnaryExpression, unaryExpressionFields, Json.size,
    Json.sizeFields]
  omega

theorem fsz_pipeExpression (p : PipeExpression) :
    fuelPipeExpression p ≤ Json.size (.obj (pipeExpressionFields p)) := by
  obtain ⟨s, e_, body, ncm⟩ := p
  have h := fsz_values body
  simp only [fuelPipeExpression, pipeExpressionFields, Json.size,
    Json.sizeFields]
  omega

theorem fsz_arrayExpression (a : ArrayExpression) :
    fuelArrayExpression a ≤ Json.size (.obj (arrayExpressionFields a)) := by
  obtain ⟨s, e_, els⟩ := a
  have h := fsz_values els
  simp only [fuelArrayExpression, arrayExpressionFields, Json.size,
    Json.sizeFields]
  omega

theorem fsz_objectExpression (o : ObjectExpression) :
    fuelObjectExpression o ≤ Json.size (.obj (objectExpressionFields o)) := by
  obtain ⟨s, e_, props⟩ := o
  have h := fsz_objectProperties props
  simp only [fuelObjectExpression, objectExpressionFields, Json.size,
    Json.sizeFields]
  omega

theorem fsz_objectProperties (ps : List ObjectProperty) :
    fuelObjectProperties ps ≤ Json.sizeList (encodeObjectProperties ps) := by
  cases ps with
  | nil => simp [fuelObjectProperties, encodeObjectProperties, Json.sizeList]
  | cons p rest =>
    have h1 := fsz_objectProperty p
    have h2 := fsz_objectProperties rest
    simp only [Json.size] at h1
    simp only [fuelObjectProperties, encodeObjectProperties, Json.sizeList,
      Json.size]
    omega

theorem fsz_objectProperty (p : ObjectProperty) :
    fuelObjectProperty p ≤ Json.size (.obj (objectPropertyFields p)) := by
  obtain ⟨s, e_, key, v⟩ := p
  have h := fsz_value v
  simp only [fuelObjectProperty, objectPropertyFields, Json.size,
    Json.sizeFields]
  omega

theorem fsz_memberObject (mo : MemberObject) :
    fuelMemberObject mo ≤ Json.size (encodeMemberObject mo) := by
  cases mo with
  | identifier i =>
    simp [fuelMemberObject, encodeMemberObject, Json.size, Json.sizeFields]
  | memberExpression m =>
    have h := fsz_memberExpression m
    simp only [Json.size] at h
    simp only [fuelMemberObject, encodeMemberObject, Json.size, Json.sizeFields]
    omega

theorem fsz_memberExpression (m : MemberExpression) :
    fuelMemberExpression m ≤ Json.size (.obj (memberExpressionFields m)) := by
  obtain ⟨s, e_, obj, prop, comp⟩ := m
  have h := fsz_memberObject obj
  simp only [fuelMemberExpression, memberExpressionFields, Json.size,
    Json.sizeFields]
  omega

theorem fsz_functionExpression (fe : FunctionExpression) :
    fuelFunctionExpression fe ≤ Json.size (.obj (functionExpressionFields fe)) := by
  obtain ⟨s, e_, id, params, body⟩ := fe
  have h := fsz_blockStatement body
  simp only [Json.size] at h
  simp only [fuelFunctionExpression, functionExpressionFields, Json.size,
    Json.sizeFields]
  omega

theorem fsz_blockStatement (b : BlockStatement) :
    fuelBlockStatement b ≤ Json.size (.obj (blockStatementFields b)) := by
  obtain ⟨s, e_, body, ncm⟩ := b
  have h := fsz_bodyItems body
  simp only [fuelBlockStatement, blockStatementFields, Json.size,
    Json.sizeFields]
  omega

end

theorem fsz_program (p : Program) :
    fuelProgram p ≤ Json.size (encodeProgram p) := by
  obtain ⟨s, e_, body, ncm⟩ := p
  have h := fsz_bodyItems body
  simp only [fuelProgram, encodeProgram, Json.size, Json.sizeFields]
  omega

/-- Full round-trip: decoding the encoding of any well-formed `Program`
recovers it exactly, field for field. -/
theorem decodeProgram_encodeProgram (p : Program) (h : wfProgram p = true) :
    decodeProgram (encodeProgram p) = .ok p :=
  rt_program p h (Json.size (encodeProgram p)) (fsz_program p)

theorem value_tag_of_ok (fs : List (String × Json)) (v : Value)
    (h : decodeValue (.obj fs) = .ok v) :
    jlookup "type" fs = some (.str (valueTag v)) := by
  simp only [decodeValue, Json.size, decodeValueF, Json.asObj, DR.bind_eq,
    DR.bind_ok, Json.getStr, Json.reqField] at h
  cases hlook : jlookup "type" fs with
  | none => rw [hlook] at h; simp at h
  | some jv =>
    rw [hlook] at h
    cases jv with
    | str t =>
      simp only [Json.asStr, DR.bind_ok] at h
      split at h
      all_goals first
        | (cases hd : decodeLiteral (Json.obj fs) <;> rw [hd] at h <;>
            simp at h <;> (subst h; simpa [valueTag] using hlook))
        | (cases hd : decodeIdentifier (Json.obj fs) <;> rw [hd] at h <;>
            simp at h <;> (subst h; simpa [valueTag] using hlook))
        | (cases hd : decodePipeSubstitution (Json.obj fs) <;> rw [hd] at h <;>
            simp at h <;> (subst h; simpa [valueTag] using hlook))
        | (cases hd : decodeBinaryExpressionF (Json.sizeFields fs) (Json.obj fs) <;>
            rw [hd] at h <;> simp at h <;> (subst h; simpa [valueTag] using hlook))
        | (cases hd : decodeFunctionExpressionF (Json.sizeFields fs) (Json.obj fs) <;>
            rw [hd] at h <;> simp at h <;> (subst h; simpa [valueTag] using hlook))
        | (cases hd : decodeCallExpressionF (Json.sizeFields fs) (Json.obj fs) <;>
            rw [hd] at h <;> simp at h <;> (subst h; simpa [valueTag] using hlook))
        | (cases hd : decodePipeExpressionF (Json.sizeFields fs) (Json.obj fs) <;>
            rw [hd] at h <;> simp at h <;> (subst h; simpa [valueTag] using hlook))
        | (cases hd : decodeArrayExpressionF (Json.sizeFields fs) (Json.obj fs) <;>
            rw [hd] at h <;> simp at h <;> (subst h; simpa [valueTag] using hlook))
        | (cases hd : decodeObjectExpressionF (Json.sizeFields fs) (Json.obj fs) <;>
            rw [hd] at h <;> simp at h <;> (subst h; simpa [valueTag] using hlook))
        | (cases hd : decodeMemberExpressionF (Json.sizeFields fs) (Json.obj fs) <;>
            rw [hd] at h <;> simp at h <;> (subst h; simpa [valueTag] using hlook))
        | (cases hd : decodeUnaryExpressionF (Json.sizeFields fs) (Json.obj fs) <;>
            rw [hd] at h <;> simp at h <;> (subst h; simpa [valueTag] using hlook))
        | simp at h
    | null => simp [Json.asStr] at h
    | bool b => simp [Json.asStr] at h
    | num n => simp [Json.asStr] at h
    | arr es => simp [Json.asStr] at h
    | obj fs2 => simp [Json.asStr] at h

theorem value_err_of_unknown_tag (fs : List (String × Json))
    (h : ∀ t, jlookup "type" fs = some (.str t) → t ∉ valueTags) :
    decodeValue (.obj fs) = .err .schemaMismatch := by
  simp only [decodeValue, Json.size, decodeValueF, Json.asObj, DR.bind_eq,
    DR.bind_ok, Json.getStr, Json.reqField]
  cases hlook : jlookup "type" fs with
  | none => simp
  | some jv =>
    cases jv with
    | str t =>
      have ht := h t hlook
      simp only [Json.asStr, DR.bind_ok]
      split <;> first | rfl | (simp [valueTags] at ht)
    | null => simp [Json.asStr]
    | bool b => simp [Json.asStr]
    | num n => simp [Json.asStr]
    | arr es => simp [Json.asStr]
    | obj fs2 => simp [Json.asStr]

theorem bodyItem_tag_of_ok (fs : List (String × Json)) (b : BodyItem)
    (h : decodeBodyItem (.obj fs) = .ok b) :
    jlookup "type" fs = some (.str (bodyItemTag b)) := by
  simp only [decodeBodyItem, Json.size, decodeBodyItemF, Json.asObj, DR.bind_eq,
    DR.bind_ok, Json.getStr, Json.reqField] at h
  cases hlook : jlookup "type" fs with
  | none => rw [hlook] at h; simp at h
  | some jv =>
    rw [hlook] at h
    cases jv with
    | str t =>
      simp only [Json.asStr, DR.bind_ok] at h
      split at h
      all_goals first
        | (cases hd : decodeExpressionStatementF (Json.sizeFields fs) (Json.obj fs) <;>
            rw [hd] at h <;> simp at h <;> (subst h; simpa [bodyItemTag] using hlook))
        | (cases hd : decodeVariableDeclarationF (Json.sizeFields fs) (Json.obj fs) <;>
            rw [hd] at h <;> simp at h <;> (subst h; simpa [bodyItemTag] using hlook))
        | (cases hd : decodeReturnStatementF (Json.sizeFields fs) (Json.obj fs) <;>
            rw [hd] at h <;> simp at h <;> (subst h; simpa [bodyItemTag] using hlook))
        | simp at h
    | null => simp [Json.asStr] at h
    | bool b2 => simp [Json.asStr] at h
    | num n => simp [Json.asStr] at h
    | arr es => simp [Json.asStr] at h
    | obj fs2 => simp [Json.asStr] at h

theorem bodyItem_err_of_unknown_tag (fs : List (String × Json))
    (h : ∀ t, jlookup "type" fs = some (.str t) → t ∉ bodyItemTags) :
    decodeBodyItem (.obj fs) = .err .schemaMismatch := by
  simp only [decodeBodyItem, Json.size, decodeBodyItemF, Json.asObj, DR.bind_eq,
    DR.bind_ok, Json.getStr, Json.reqField]
  cases hlook : jlookup "type" fs with
  | none => simp
  | some jv =>
    cases jv with
    | str t =>
      have ht := h t hlook
      simp only [Json.asStr, DR.bind_ok]
      split <;> first | rfl | (simp [bodyItemTags] at ht)
    | null => simp [Json.asStr]
    | bool b => simp [Json.asStr]
    | num n => simp [Json.asStr]
    | arr es => simp [Json.asStr]
    | obj fs2 => simp [Json.asStr]

theorem binaryPart_tag_of_ok (fs : List (String × Json)) (bp : BinaryPart)
    (h : decodeBinaryPart (.obj fs) = .ok bp) :
    jlookup "type" fs = some (.str (binaryPartTag bp)) := by
  simp only [decodeBinaryPart, Json.size, decodeBinaryPartF, Json.asObj,
    DR.bind_eq, DR.bind_ok, Json.getStr, Json.reqField] at h
  cases hlook : jlookup "type" fs with
  | none => rw [hlook] at h; simp at h
  | some jv =>
    rw [hlook] at h
    cases jv with
    | str t =>
      simp only [Json.asStr, DR.bind_ok] at h
      split at h
      all_goals first
        | (cases hd : decodeLiteral (Json.obj fs) <;> rw [hd] at h <;>
            simp at h <;> (subst h; simpa [binaryPartTag] using hlook))
        | (cases hd : decodeIdentifier (Json.obj fs) <;> rw [hd] at h <;>
            simp at h <;> (subst h; simpa [binaryPartTag] using hlook))
        | (cases hd : decodeBinaryExpressionF (Json.sizeFields fs) (Json.obj fs) <;>
            rw [hd] at h <;> simp at h <;> (subst h; simpa [binaryPartTag] using hlook))
        | (cases hd : decodeCallExpressionF (Json.sizeFields fs) (Json.obj fs) <;>
            rw [hd] at h <;> simp at h <;> (subst h; simpa [binaryPartTag] using hlook))
        | (cases hd : decodeUnaryExpressionF (Json.sizeFields fs) (Json.obj fs) <;>
            rw [hd] at h <;> simp at h <;> (subst h; simpa [binaryPartTag] using hlook))
        | simp at h
    | null => simp [Json.asStr] at h
    | bool b => simp [Json.asStr] at h
    | num n => simp [Json.asStr] at h
    | arr es => simp [Json.asStr] at h
    | obj fs2 => simp [Json.asStr] at h

theorem binaryPart_err_of_unknown_tag (fs : List (String × Json))
    (h : ∀ t, jlookup "type" fs = some (.str t) → t ∉ binaryPartTags) :
    decodeBinaryPart (.obj fs) = .err .schemaMismatch := by
  simp only [decodeBinaryPart, Json.size, decodeBinaryPartF, Json.asObj,
    DR.bind_eq, DR.bind_ok, Json.getStr, Json.reqField]
  cases hlook : jlookup "type" fs with
  | none => simp
  | some jv =>
    cases jv with
    | str t =>
      have ht := h t hlook
      simp only [Json.asStr, DR.bind_ok]
      split <;> first | rfl | (simp [binaryPartTags] at ht)
    | null => simp [Json.asStr]
    | bool b => simp [Json.asStr]
    | num n => simp [Json.asStr]
    | arr es => simp [Json.asStr]
    | obj fs2 => simp [Json.asStr]

theorem memberObject_tag_of_ok (fs : List (String × Json)) (mo : MemberObject)
    (h : decodeMemberObject (.obj fs) = .ok mo) :
    jlookup "type" fs = some (.str (memberObjectTag mo)) := by
  simp only [decodeMemberObject, Json.size, decodeMemberObjectF, Json.asObj,
    DR.bind_eq, DR.bind_ok, Json.getStr, Json.reqField] at h
  cases hlook : jlookup "type" fs with
  | none => rw [hlook] at h; simp at h
  | some jv =>
    rw [hlook] at h
    cases jv with
    | str t =>
      simp only [Json.asStr, DR.bind_ok] at h
      split at h
      all_goals first
        | (cases hd : decodeMemberExpressionF (Json.sizeFields fs) (Json.obj fs) <;>
            rw [hd] at h <;> simp at h <;> (subst h; simpa [memberObjectTag] using hlook))
        | (cases hd : decodeIdentifier (Json.obj fs) <;> rw [hd] at h <;>
            simp at h <;> (subst h; simpa [memberObjectTag] using hlook))
        | simp at h
    | null => simp [Json.asStr] at h
    | bool b => simp [Json.asStr] at h
    | num n => simp [Json.asStr] at h
    | arr es => simp [Json.asStr] at h
    | obj fs2 => simp [Json.asStr] at h

theorem memberObject_err_of_unknown_tag (fs : List (String × Json))
    (h : ∀ t, jlookup "type" fs = some (.str t) → t ∉ memberObjectTags) :
    decodeMemberObject (.obj fs) = .err .schemaMismatch := by
  simp only [decodeMemberObject, Json.size, decodeMemberObjectF, Json.asObj,
    DR.bind_eq, DR.bind_ok, Json.getStr, Json.reqField]
  cases hlook : jlookup "type" fs with
  | none => simp
  | some jv =>
    cases jv with
    | str t =>
      have ht := h t hlook
      simp only [Json.asStr, DR.bind_ok]
      split <;> first | rfl | (simp [memberObjectTags] at ht)
    | null => simp [Json.asStr]
    | bool b => simp [Json.asStr]
    | num n => simp [Json.asStr]
    | arr es => simp [Json.asStr]
    | obj fs2 => simp [Json.asStr]

theorem memberProperty_tag_of_ok (fs : List (String × Json)) (mp : MemberProperty)
    (h : decodeMemberProperty (.obj fs) = .ok mp) :
    jlookup "type" fs = some (.str (memberPropertyTag mp)) := by
  simp only [decodeMemberProperty, Json.asObj, DR.bind_eq, DR.bind_ok,
    Json.getStr, Json.reqField] at h
  cases hlook : jlookup "type" fs with
  | none => rw [hlook] at h; simp at h
  | some jv =>
    rw [hlook] at h
    cases jv with
    | str t =>
      simp only [Json.asStr, DR.bind_ok] at h
      split at h
      all_goals first
        | (cases hd : decodeIdentifier (Json.obj fs) <;> rw [hd] at h <;>
            simp at h <;> (subst h; simpa [memberPropertyTag] using hlook))
        | (cases hd : decodeLiteral (Json.obj fs) <;> rw [hd] at h <;>
            simp at h <;> (subst h; simpa [memberPropertyTag] using hlook))
        | simp at h
    | null => simp [Json.asStr] at h
    | bool b => simp [Json.asStr] at h
    | num n => simp [Json.asStr] at h
    | arr es => simp [Json.asStr] at h
    | obj fs2 => simp [Json.asStr] at h

theorem memberProperty_err_of_unknown_tag (fs : List (String × Json))
    (h : ∀ t, jlookup "type" fs = some (.str t) → t ∉ memberPropertyTags) :
    decodeMemberProperty (.obj fs) = .err .schemaMismatch := by
  simp only [decodeMemberProperty, Json.asObj, DR.bind_eq, DR.bind_ok,
    Json.getStr, Json.reqField]
  cases hlook : jlookup "type" fs with
  | none => simp
  | some jv =>
    cases jv with
    | str t =>
      have ht := h t hlook
      simp only [Json.asStr, DR.bind_ok]
      split <;> first | rfl | (simp [memberPropertyTags] at ht)
    | null => simp [Json.asStr]
    | bool b => simp [Json.asStr]
    | num n => simp [Json.asStr]
    | arr es => simp [Json.asStr]
    | obj fs2 => simp [Json.asStr]

/-! ## Unknown fields are ignored; successful decodes pin required fields -/

theorem jlookup_append (k' k : String) (v : Json) (fs : List (String × Json))
    (h : k' ≠ k) : jlookup k' (fs ++ [(k, v)]) = jlookup k' fs := by
  induction fs with
  | nil => simp [Json.jlookup, h]
  | cons f rest ih =>
    obtain ⟨k0, v0⟩ := f
    by_cases hk : k' = k0
    · simp [Json.jlookup, hk]
    · simp [Json.jlookup, hk, ih]

theorem decodeProgramF_extra (fuel : Nat) (fs : List (String × Json))
    (k : String) (v : Json)
    (h : k ∉ (["start", "end", "body", "nonCodeMeta"] : List String)) :
    decodeProgramF fuel (.obj (fs ++ [(k, v)])) = decodeProgramF fuel (.obj fs) := by
  simp only [List.mem_cons, List.mem_singleton, not_or] at h
  obtain ⟨h1, h2, h3, h4, -⟩ := h
  have e1 := jlookup_append "start" k v fs (Ne.symm h1)
  have e2 := jlookup_append "end" k v fs (Ne.symm h2)
  have e3 := jlookup_append "body" k v fs (Ne.symm h3)
  have e4 := jlookup_append "nonCodeMeta" k v fs (Ne.symm h4)
  simp only [decodeProgramF, Json.asObj, DR.bind_eq, DR.bind_ok, Json.getNat,
    Json.reqField, e1, e2, e3, e4]

theorem decodeCallExpressionF_extra (fuel : Nat) (fs : List (String × Json))
    (k : String) (v : Json)
    (h : k ∉ (["start", "end", "callee", "arguments", "optional"] : List String)) :
    decodeCallExpressionF fuel (.obj (fs ++ [(k, v)])) =
      decodeCallExpressionF fuel (.obj fs) := by
  simp only [List.mem_cons, List.mem_singleton, not_or] at h
  obtain ⟨h1, h2, h3, h4, h5, -⟩ := h
  have e1 := jlookup_append "start" k v fs (Ne.symm h1)
  have e2 := jlookup_append "end" k v fs (Ne.symm h2)
  have e3 := jlookup_append "callee" k v fs (Ne.symm h3)
  have e4 := jlookup_append "arguments" k v fs (Ne.symm h4)
  have e5 := jlookup_append "optional" k v fs (Ne.symm h5)
  cases fuel with
  | zero => rfl
  | succ f =>
    simp only [decodeCallExpressionF, Json.asObj, DR.bind_eq, DR.bind_ok,
      Json.getNat, Json.getBool, Json.reqField, e1, e2, e3, e4, e5]

theorem reqField_ok {fs : List (String × Json)} {k : String} {v : Json}
    (h : Json.reqField fs k = .ok v) : jlookup k fs = some v := by
  simp only [Json.reqField] at h
  cases hl : jlookup k fs with
  | none => rw [hl] at h; cases h
  | some w => rw [hl] at h; cases h; rfl

theorem getStr_ok {fs : List (String × Json)} {k s : String}
    (h : Json.getStr fs k = .ok s) : jlookup k fs = some (.str s) := by
  simp only [Json.getStr, DR.bind_eq, Json.reqField] at h
  cases hl : jlookup k fs with
  | none => rw [hl] at h; cases h
  | some w =>
    rw [hl] at h
    simp only [DR.bind_ok] at h
    cases w <;> simp [Json.asStr] at h
    rw [h]

theorem decodeLiteral_ok_fields (fs : List (String × Json)) (l : Literal)
    (h : decodeLiteral (.obj fs) = .ok l) :
    jlookup "value" fs = some l.value ∧ jlookup "raw" fs = some (.str l.raw) := by
  simp only [decodeLiteral, Json.asObj, DR.bind_eq, DR.bind_ok] at h
  cases hs : Json.getNat fs "start" <;> rw [hs] at h <;> simp at h
  cases he : Json.getNat fs "end" <;> rw [he] at h <;> simp at h
  cases hv : Json.reqField fs "value" <;> rw [hv] at h <;> simp at h
  cases hr : Json.getStr fs "raw" <;> rw [hr] at h <;> simp at h
  obtain ⟨s, e_, v, r⟩ := l
  cases h
  exact ⟨reqField_ok hv, getStr_ok hr⟩

/-! ## The claims -/

/-- C1, counterexample: a `noneCodeNodes` map with the unparseable key
`"abc"` does not make decoding return a `MalformedKey` decode error — the
hand-written deserializer calls `key.parse().unwrap()`, which panics. -/
theorem c1_counterexample :
    decodeNoneCodeMeta malformedKeyMetaJ = .panic ∧
      decodeNoneCodeMeta malformedKeyMetaJ ≠ .err .malformedKey :=
  ⟨rfl, fun h => nomatch h⟩

/-- C1, amended: for every `noneCodeNodes` mapping containing at least one
key that is not parseable as a non-negative decimal integer (e.g. `"abc"`
or `"-1"`), decoding the enclosing `NoneCodeMeta` panics (the `unwrap`
aborts the process) instead of returning a `MalformedKey` error; no partial
registry is returned and the malformed entry is not silently skipped. -/
theorem c1_theorem :
    (∀ (entries : List (String × NoneCodeNode)) acc,
        (∃ kv ∈ entries, parseUsize kv.1 = none) →
        buildNoneCodeNodes entries acc = .panic) ∧
      decodeNoneCodeMeta malformedKeyMetaJ = .panic ∧
      decodeNoneCodeMeta negativeKeyMetaJ = .panic :=
  ⟨buildNoneCodeNodes_panic, rfl, rfl⟩

/-- C1, witness: the general part of `c1_theorem` applied to the singleton
map with key `"abc"`. -/
theorem c1_witness :
    buildNoneCodeNodes [("abc", hiNode)] [] = .panic :=
  c1_theorem.1 [("abc", hiNode)] [] ⟨("abc", hiNode), by simp, rfl⟩

/-- C2: round-trip identity — decoding the encoding of any valid tree (all
registries have pairwise distinct ordinals, the hash-map invariant) yields
the tree back, field for field. -/
theorem c2_theorem (p : Program) (h : wfProgram p = true) :
    decodeProgram (encodeProgram p) = .ok p :=
  decodeProgram_encodeProgram p h

/-- C2, witness: the round trip evaluated on a concrete program with a call
expression, a literal argument, and a populated non-code registry. -/
theorem c2_witness :
    wfProgram sampleProgram = true ∧
      decodeProgram (encodeProgram sampleProgram) = .ok sampleProgram :=
  ⟨by decide, c2_theorem sampleProgram (by decide)⟩

/-- C3: tag exhaustiveness for each polymorphic family (`Value`,
`BodyItem`, `BinaryPart`, `MemberObject`, `MemberProperty`): a successful
decode pins the `type` tag to the documented tag of the produced variant
(each variant decodes from its tag and no other), and an absent,
non-string, or unrecognized tag (e.g. `"Frobnicate"`) yields a
`SchemaMismatch` decode error. -/
theorem c3_theorem :
    (∀ fs v, decodeValue (.obj fs) = .ok v →
        jlookup "type" fs = some (.str (valueTag v))) ∧
    (∀ fs, (∀ t, jlookup "type" fs = some (.str t) → t ∉ valueTags) →
        decodeValue (.obj fs) = .err .schemaMismatch) ∧
    (∀ fs b, decodeBodyItem (.obj fs) = .ok b →
        jlookup "type" fs = some (.str (bodyItemTag b))) ∧
    (∀ fs, (∀ t, jlookup "type" fs = some (.str t) → t ∉ bodyItemTags) →
        decodeBodyItem (.obj fs) = .err .schemaMismatch) ∧
    (∀ fs bp, decodeBinaryPart (.obj fs) = .ok bp →
        jlookup "type" fs = some (.str (binaryPartTag bp))) ∧
    (∀ fs, (∀ t, jlookup "type" fs = some (.str t) → t ∉ binaryPartTags) →
        decodeBinaryPart (.obj fs) = .err .schemaMismatch) ∧
    (∀ fs mo, decodeMemberObject (.obj fs) = .ok mo →
        jlookup "type" fs = some (.str (memberObjectTag mo))) ∧
    (∀ fs, (∀ t, jlookup "type" fs = some (.str t) → t ∉ memberObjectTags) →
        decodeMemberObject (.obj fs) = .err .schemaMismatch) ∧
    (∀ fs mp, decodeMemberProperty (.obj fs) = .ok mp →
        jlookup "type" fs = some (.str (memberPropertyTag mp))) ∧
    (∀ fs, (∀ t, jlookup "type" fs = some (.str t) → t ∉ memberPropertyTags) →
        decodeMemberProperty (.obj fs) = .err .schemaMismatch) ∧
    decodeValue (.obj [("type", .str "Frobnicate"), ("start", .num 0),
        ("end", .num 1)]) = .err .schemaMismatch ∧
    decodeValue (.obj [("start", .num 0), ("end", .num 1)]) =
      .err .schemaMismatch :=
  ⟨value_tag_of_ok, value_err_of_unknown_tag, bodyItem_tag_of_ok,
   bodyItem_err_of_unknown_tag, binaryPart_tag_of_ok,
   binaryPart_err_of_unknown_tag, memberObject_tag_of_ok,
   memberObject_err_of_unknown_tag, memberProperty_tag_of_ok,
   memberProperty_err_of_unknown_tag, rfl, rfl⟩

/-- C3, witness: `c3_theorem` applied at a concrete successful decode (tag
recovered) and at a concrete unknown tag (`SchemaMismatch`). -/
theorem c3_witness :
    jlookup "type" [("type", Json.str "PipeSubstitution"), ("start", Json.num 0),
        ("end", Json.num 2)] =
      some (.str (valueTag (.pipeSubstitution ⟨0, 2⟩))) ∧
    decodeValue (.obj [("type", .str "Frobnicate")]) = .err .schemaMismatch :=
  ⟨c3_theorem.1 _ _ rfl,
   c3_theorem.2.1 _ (by
    intro t ht
    simp [Json.jlookup] at ht
    subst ht
    decide)⟩

/-- C4, counterexample: the decoder performs no span validation — the
document with `start = 5 > 0 = end` decodes successfully instead of being
rejected or flagged. -/
theorem c4_counterexample :
    decodeProgram startGtEndJ = .ok ⟨5, 0, [], ⟨[], none⟩⟩ ∧ 0 < 5 :=
  ⟨rfl, by decide⟩

/-- C4, amended: the decoder preserves `start` and `end` verbatim and never
compares them; any pair of non-negative offsets, including `start > end`,
is accepted. -/
theorem c4_theorem (s e : Nat) :
    decodeProgram
      (.obj [("start", .num s), ("end", .num e), ("body", .arr []),
             ("nonCodeMeta", .obj [("noneCodeNodes", .obj []),
                                   ("start", .null)])]) =
      .ok ⟨s, e, [], ⟨[], none⟩⟩ := by
  have hncm : decodeNoneCodeMeta (.obj [("noneCodeNodes", .obj []),
      ("start", .null)]) = .ok ⟨[], none⟩ := rfl
  simp [decodeProgram, Json.size, Json.sizeFields, Json.sizeList,
    decodeProgramF, Json.asObj, Json.getNat, Json.reqField, Json.jlookup,
    asNat_natCast, Json.asArr, decodeBodyItemsF, hncm]

/-- C5: key canonicalization — the decoder normalizes a leading-zero key
(`"03"` becomes ordinal `3`, consistently, without failing), and encoding
renders every ordinal as canonical decimal text with no leading zeros (the
rendering parses back to the same ordinal), so ordinal `3` re-encodes as
the key `"3"`. -/
theorem c5_theorem :
    decodeNoneCodeMeta leadingZeroMetaJ = .ok ⟨[(3, hiNode)], none⟩ ∧
    encodeNoneCodeMeta ⟨[(3, hiNode)], none⟩ =
      .obj [("noneCodeNodes", .obj [("3", hiNodeJ)]), ("start", .null)] ∧
    (∀ n : Nat, parseUsize (natToString n) = some n) :=
  ⟨rfl, rfl, parseUsize_natToString⟩

/-- C6: Scenario A — the empty program document decodes to the `Program`
with offsets 0 and 5, no statements, and an empty registry with no leading
fragment. -/
theorem c6_theorem : decodeProgram scenarioA = .ok ⟨0, 5, [], ⟨[], none⟩⟩ :=
  rfl

/-- C7, counterexample: `Literal.value` is not restricted to scalars — a
literal node whose `value` is JSON `null` (and one whose `value` is an
array) decodes successfully. -/
theorem c7_counterexample :
    decodeValue nullLiteralJ = .ok (.literal ⟨0, 1, .null, "null"⟩) ∧
    decodeValue arrLiteralJ = .ok (.literal ⟨0, 5, .arr [.num 1, .num 2],
        "[1, 2]"⟩) :=
  ⟨rfl, rfl⟩

/-- C7, amended: a decoded Literal holds whatever JSON value appeared on
the wire, verbatim — scalar, `null`, array, or object alike — and always
carries its required raw source text (a successful decode pins both the
`value` and the string `raw` fields of the input). -/
theorem c7_theorem :
    (∀ fs l, decodeLiteral (.obj fs) = .ok l →
        jlookup "value" fs = some l.value ∧
          jlookup "raw" fs = some (.str l.raw)) ∧
    decodeValue objLiteralJ =
      .ok (.literal ⟨0, 2, .obj [("a", .num 1)], "objectlit"⟩) :=
  ⟨decodeLiteral_ok_fields, rfl⟩

/-- C7, witness: `c7_theorem` applied at a concrete literal node. -/
theorem c7_witness :
    jlookup "value" [("start", Json.num 4), ("end", Json.num 5),
        ("value", Json.num 1), ("raw", Json.str "1")] = some (.num 1) ∧
    jlookup "raw" [("start", Json.num 4), ("end", Json.num 5),
        ("value", Json.num 1), ("raw", Json.str "1")] = some (.str "1") :=
  c7_theorem.1 _ ⟨4, 5, .num 1, "1"⟩ rfl

/-- C8, counterexample: the claim's document, taken literally, is missing
the mandatory `start`/`end` fields, so decoding fails; and even with spans
added, a callee carrying the claim's `"type":"Identifier"` member decodes
fine but does not re-encode identically — the serializer emits the callee
as an untagged struct. -/
theorem c8_counterexample :
    decodeValue scenarioB = .err .schemaMismatch ∧
    decodeValue scenarioBTagged = .ok (.callExpression scenarioBNode) ∧
    encodeValue (.callExpression scenarioBNode) ≠ scenarioBTagged :=
  ⟨rfl, rfl, by
    intro h
    simp [encodeValue, callExpressionFields, identifierFields, encodeValues,
      literalFields, scenarioBTagged, scenarioBNode] at h⟩

/-- C8, amended: decoding a CallExpression node carrying spans, a callee
`{start, end, name:"foo"}`, arguments `[Literal 1]`, and `optional:false`
yields the node whose callee name is `"foo"` and whose single argument is a
Literal holding numeric value `1`; re-encoding that node reproduces the
identical JSON object. -/
theorem c8_theorem :
    decodeValue scenarioBFull = .ok (.callExpression scenarioBNode) ∧
    encodeValue (.callExpression scenarioBNode) = scenarioBFull :=
  ⟨rfl, rfl⟩

/-- C9: two distinct textual keys parsing to the same ordinal (`"3"`/`"03"`,
or `"3"`/`"+3"`) decode without error into a registry holding exactly one
fragment at that ordinal (the registry always has pairwise distinct
ordinals), silently discarding the other fragment. -/
theorem c9_theorem :
    (∀ (entries : List (String × NoneCodeNode)),
        (∀ kv ∈ entries, (parseUsize kv.1).isSome = true) →
        ∃ l, buildNoneCodeNodes entries [] = .ok l ∧ keysNodupB l = true) ∧
    decodeNoneCodeMeta dupKeysMetaJ = .ok ⟨[(3, xNode)], none⟩ ∧
    decodeNoneCodeMeta plusKeyMetaJ = .ok ⟨[(3, xNode)], none⟩ :=
  ⟨fun entries h => buildNoneCodeNodes_ok entries [] h rfl, rfl, rfl⟩

/-- C9, witness: the general part of `c9_theorem` applied to the map with
keys `"3"` and `"03"`. -/
theorem c9_witness :
    ∃ l, buildNoneCodeNodes [("3", hiNode), ("03", xNode)] [] = .ok l ∧
      keysNodupB l = true :=
  c9_theorem.1 [("3", hiNode), ("03", xNode)] (by decide)

theorem layout_ne {k s : String} {L : List String} (h : k ∉ L) (hs : s ∈ L) :
    s ≠ k :=
  fun he => h (he ▸ hs)

theorem layout_sub {k : String} {L1 L2 : List String} (h : k ∉ L2)
    (hs : L1 ⊆ L2) : k ∉ L1 :=
  fun hm => h (hs hm)

theorem decodeIdentifier_extra (fs : List (String × Json))
    (k : String) (v : Json) (h : k ∉ layoutIdentifier) :
    decodeIdentifier (.obj (fs ++ [(k, v)])) = decodeIdentifier (.obj fs) := by
  have e_start := jlookup_append "start" k v fs (layout_ne h (by decide))
  have e_end := jlookup_append "end" k v fs (layout_ne h (by decide))
  have e_name := jlookup_append "name" k v fs (layout_ne h (by decide))
  simp only [decodeIdentifier, Json.asObj, DR.bind_eq, DR.bind_ok, Json.getNat, Json.getStr, Json.getBool, Json.reqField, Json.asArr, Json.asStr, Json.asBool, Json.getOpt, e_start, e_end, e_name]

theorem decodeLiteral_extra (fs : List (String × Json))
    (k : String) (v : Json) (h : k ∉ layoutLiteral) :
    decodeLiteral (.obj (fs ++ [(k, v)])) = decodeLiteral (.obj fs) := by
  have e_start := jlookup_append "start" k v fs (layout_ne h (by decide))
  have e_end := jlookup_append "end" k v fs (layout_ne h (by decide))
  have e_value := jlookup_append "value" k v fs (layout_ne h (by decide))
  have e_raw := jlookup_append "raw" k v fs (layout_ne h (by decide))
  simp only [decodeLiteral, Json.asObj, DR.bind_eq, DR.bind_ok, Json.getNat, Json.getStr, Json.getBool, Json.reqField, Json.asArr, Json.asStr, Json.asBool, Json.getOpt, e_start, e_end, e_value, e_raw]

theorem decodeNoneCodeNode_extra (fs : List (String × Json))
    (k : String) (v : Json) (h : k ∉ layoutNoneCodeNode) :
    decodeNoneCodeNode (.obj (fs ++ [(k, v)])) = decodeNoneCodeNode (.obj fs) := by
  have e_start := jlookup_append "start" k v fs (layout_ne h (by decide))
  have e_end := jlookup_append "end" k v fs (layout_ne h (by decide))
  have e_value := jlookup_append "value" k v fs (layout_ne h (by decide))
  simp only [decodeNoneCodeNode, Json.asObj, DR.bind_eq, DR.bind_ok, Json.getNat, Json.getStr, Json.getBool, Json.reqField, Json.asArr, Json.asStr, Json.asBool, Json.getOpt, e_start, e_end, e_value]

theorem decodePipeSubstitution_extra (fs : List (String × Json))
    (k : String) (v : Json) (h : k ∉ layoutPipeSubstitution) :
    decodePipeSubstitution (.obj (fs ++ [(k, v)])) = decodePipeSubstitution (.obj fs) := by
  have e_start := jlookup_append "start" k v fs (layout_ne h (by decide))
  have e_end := jlookup_append "end" k v fs (layout_ne h (by decide))
  simp only [decodePipeSubstitution, Json.asObj, DR.bind_eq, DR.bind_ok, Json.getNat, Json.getStr, Json.getBool, Json.reqField, Json.asArr, Json.asStr, Json.asBool, Json.getOpt, e_start, e_end]

theorem decodeNoneCodeMeta_extra (fs : List (String × Json))
    (k : String) (v : Json) (h : k ∉ layoutNoneCodeMeta) :
    decodeNoneCodeMeta (.obj (fs ++ [(k, v)])) = decodeNoneCodeMeta (.obj fs) := by
  have e_noneCodeNodes := jlookup_append "noneCodeNodes" k v fs (layout_ne h (by decide))
  have e_start := jlookup_append "start" k v fs (layout_ne h (by decide))
  simp only [decodeNoneCodeMeta, Json.asObj, DR.bind_eq, DR.bind_ok, Json.getNat, Json.getStr, Json.getBool, Json.reqField, Json.asArr, Json.asStr, Json.asBool, Json.getOpt, e_noneCodeNodes, e_start]

theorem decodeExpressionStatementF_extra (fuel : Nat) (fs : List (String × Json))
    (k : String) (v : Json) (h : k ∉ layoutExpressionStatement) :
    decodeExpressionStatementF fuel (.obj (fs ++ [(k, v)])) = decodeExpressionStatementF fuel (.obj fs) := by
  have e_start := jlookup_append "start" k v fs (layout_ne h (by decide))
  have e_end := jlookup_append "end" k v fs (layout_ne h (by decide))
  have e_expression := jlookup_append "expression" k v fs (layout_ne h (by decide))
  cases fuel with
  | zero => rfl
  | succ f =>
  simp only [decodeExpressionStatementF, Json.asObj, DR.bind_eq, DR.bind_ok, Json.getNat, Json.getStr, Json.getBool, Json.reqField, Json.asArr, Json.asStr, Json.asBool, Json.getOpt, e_start, e_end, e_expression]

theorem decodeVariableDeclarationF_extra (fuel : Nat) (fs : List (String × Json))
    (k : String) (v : Json) (h : k ∉ layoutVariableDeclaration) :
    decodeVariableDeclarationF fuel (.obj (fs ++ [(k, v)])) = decodeVariableDeclarationF fuel (.obj fs) := by
  have e_start := jlookup_append "start" k v fs (layout_ne h (by decide))
  have e_end := jlookup_append "end" k v fs (layout_ne h (by decide))
  have e_declarations := jlookup_append "declarations" k v fs (layout_ne h (by decide))
  have e_kind := jlookup_append "kind" k v fs (layout_ne h (by decide))
  cases fuel with
  | zero => rfl
  | succ f =>
  simp only [decodeVariableDeclarationF, Json.asObj, DR.bind_eq, DR.bind_ok, Json.getNat, Json.getStr, Json.getBool, Json.reqField, Json.asArr, Json.asStr, Json.asBool, Json.getOpt, e_start, e_end, e_declarations, e_kind]

theorem decodeVariableDeclaratorF_extra (fuel : Nat) (fs : List (String × Json))
    (k : String) (v : Json) (h : k ∉ layoutVariableDeclarator) :
    decodeVariableDeclaratorF fuel (.obj (fs ++ [(k, v)])) = decodeVariableDeclaratorF fuel (.obj fs) := by
  have e_start := jlookup_append "start" k v fs (layout_ne h (by decide))
  have e_end := jlookup_append "end" k v fs (layout_ne h (by decide))
  have e_id := jlookup_append "id" k v fs (layout_ne h (by decide))
  have e_init := jlookup_append "init" k v fs (layout_ne h (by decide))
  cases fuel with
  | zero => rfl
  | succ f =>
  simp only [decodeVariableDeclaratorF, Json.asObj, DR.bind_eq, DR.bind_ok, Json.getNat, Json.getStr, Json.getBool, Json.reqField, Json.asArr, Json.asStr, Json.asBool, Json.getOpt, e_start, e_end, e_id, e_init]

theorem decodeReturnStatementF_extra (fuel : Nat) (fs : List (String × Json))
    (k : String) (v : Json) (h : k ∉ layoutReturnStatement) :
    decodeReturnStatementF fuel (.obj (fs ++ [(k, v)])) = decodeReturnStatementF fuel (.obj fs) := by
  have e_start := jlookup_append "start" k v fs (layout_ne h (by decide))
  have e_end := jlookup_append "end" k v fs (layout_ne h (by decide))
  have e_argument := jlookup_append "argument" k v fs (layout_ne h (by decide))
  cases fuel with
  | zero => rfl
  | succ f =>
  simp only [decodeReturnStatementF, Json.asObj, DR.bind_eq, DR.bind_ok, Json.getNat, Json.getStr, Json.getBool, Json.reqField, Json.asArr, Json.asStr, Json.asBool, Json.getOpt, e_start, e_end, e_argument]

theorem decodeBinaryExpressionF_extra (fuel : Nat) (fs : List (String × Json))
    (k : String) (v : Json) (h : k ∉ layoutBinaryExpression) :
    decodeBinaryExpressionF fuel (.obj (fs ++ [(k, v)])) = decodeBinaryExpressionF fuel (.obj fs) := by
  have e_start := jlookup_append "start" k v fs (layout_ne h (by decide))
  have e_end := jlookup_append "end" k v fs (layout_ne h (by decide))
  have e_operator := jlookup_append "operator" k v fs (layout_ne h (by decide))
  have e_left := jlookup_append "left" k v fs (layout_ne h (by decide))
  have e_right := jlookup_append "right" k v fs (layout_ne h (by decide))
  cases fuel with
  | zero => rfl
  | succ f =>
  simp only [decodeBinaryExpressionF, Json.asObj, DR.bind_eq, DR.bind_ok, Json.getNat, Json.getStr, Json.getBool, Json.reqField, Json.asArr, Json.asStr, Json.asBool, Json.getOpt, e_start, e_end, e_operator, e_left, e_right]

theorem decodeUnaryExpressionF_extra (fuel : Nat) (fs : List (String × Json))
    (k : String) (v : Json) (h : k ∉ layoutUnaryExpression) :
    decodeUnaryExpressionF fuel (.obj (fs ++ [(k, v)])) = decodeUnaryExpressionF fuel (.obj fs) := by
  have e_start := jlookup_append "start" k v fs (layout_ne h (by decide))
  have e_end := jlookup_append "end" k v fs (layout_ne h (by decide))
  have e_operator := jlookup_append "operator" k v fs (layout_ne h (by decide))
  have e_argument := jlookup_append "argument" k v fs (layout_ne h (by decide))
  cases fuel with
  | zero => rfl
  | succ f =>
  simp only [decodeUnaryExpressionF, Json.asObj, DR.bind_eq, DR.bind_ok, Json.getNat, Json.getStr, Json.getBool, Json.reqField, Json.asArr, Json.asStr, Json.asBool, Json.getOpt, e_start, e_end, e_operator, e_argument]

theorem decodePipeExpressionF_extra (fuel : Nat) (fs : List (String × Json))
    (k : String) (v : Json) (h : k ∉ layoutPipeExpression) :
    decodePipeExpressionF fuel (.obj (fs ++ [(k, v)])) = decodePipeExpressionF fuel (.obj fs) := by
  have e_start := jlookup_append "start" k v fs (layout_ne h (by decide))
  have e_end := jlookup_append "end" k v fs (layout_ne h (by decide))
  have e_body := jlookup_append "body" k v fs (layout_ne h (by decide))
  have e_nonCodeMeta := jlookup_append "nonCodeMeta" k v fs (layout_ne h (by decide))
  cases fuel with
  | zero => rfl
  | succ f =>
  simp only [decodePipeExpressionF, Json.asObj, DR.bind_eq, DR.bind_ok, Json.getNat, Json.getStr, Json.getBool, Json.reqField, Json.asArr, Json.asStr, Json.asBool, Json.getOpt, e_start, e_end, e_body, e_nonCodeMeta]

theorem decodeArrayExpressionF_extra (fuel : Nat) (fs : List (String × Json))
    (k : String) (v : Json) (h : k ∉ layoutArrayExpression) :
    decodeArrayExpressionF fuel (.obj (fs ++ [(k, v)])) = decodeArrayExpressionF fuel (.obj fs) := by
  have e_start := jlookup_append "start" k v fs (layout_ne h (by decide))
  have e_end := jlookup_append "end" k v fs (layout_ne h (by decide))
  have e_elements := jlookup_append "elements" k v fs (layout_ne h (by decide))
  cases fuel with
  | zero => rfl
  | succ f =>
  simp only [decodeArrayExpressionF, Json.asObj, DR.bind_eq, DR.bind_ok, Json.getNat, Json.getStr, Json.getBool, Json.reqField, Json.asArr, Json.asStr, Json.asBool, Json.getOpt, e_start, e_end, e_elements]

theorem decodeObjectExpressionF_extra (fuel : Nat) (fs : List (String × Json))
    (k : String) (v : Json) (h : k ∉ layoutObjectExpression) :
    decodeObjectExpressionF fuel (.obj (fs ++ [(k, v)])) = decodeObjectExpressionF fuel (.obj fs) := by
  have e_start := jlookup_append "start" k v fs (layout_ne h (by decide))
  have e_end := jlookup_append "end" k v fs (layout_ne h (by decide))
  have e_properties := jlookup_append "properties" k v fs (layout_ne h (by decide))
  cases fuel with
  | zero => rfl
  | succ f =>
  simp only [decodeObjectExpressionF, Json.asObj, DR.bind_eq, DR.bind_ok, Json.getNat, Json.getStr, Json.getBool, Json.reqField, Json.asArr, Json.asStr, Json.asBool, Json.getOpt, e_start, e_end, e_properties]

theorem decodeObjectPropertyF_extra (fuel : Nat) (fs : List (String × Json))
    (k : String) (v : Json) (h : k ∉ layoutObjectProperty) :
    decodeObjectPropertyF fuel (.obj (fs ++ [(k, v)])) = decodeObjectPropertyF fuel (.obj fs) := by
  have e_start := jlookup_append "start" k v fs (layout_ne h (by decide))
  have e_end := jlookup_append "end" k v fs (layout_ne h (by decide))
  have e_key := jlookup_append "key" k v fs (layout_ne h (by decide))
  have e_value := jlookup_append "value" k v fs (layout_ne h (by decide))
  cases fuel with
  | zero => rfl
  | succ f =>
  simp only [decodeObjectPropertyF, Json.asObj, DR.bind_eq, DR.bind_ok, Json.getNat, Json.getStr, Json.getBool, Json.reqField, Json.asArr, Json.asStr, Json.asBool, Json.getOpt, e_start, e_end, e_key, e_value]

theorem decodeMemberExpressionF_extra (fuel : Nat) (fs : List (String × Json))
    (k : String) (v : Json) (h : k ∉ layoutMemberExpression) :
    decodeMemberExpressionF fuel (.obj (fs ++ [(k, v)])) = decodeMemberExpressionF fuel (.obj fs) := by
  have e_start := jlookup_append "start" k v fs (layout_ne h (by decide))
  have e_end := jlookup_append "end" k v fs (layout_ne h (by decide))
  have e_object := jlookup_append "object" k v fs (layout_ne h (by decide))
  have e_property := jlookup_append "property" k v fs (layout_ne h (by decide))
  have e_computed := jlookup_append "computed" k v fs (layout_ne h (by decide))
  cases fuel with
  | zero => rfl
  | succ f =>
  simp only [decodeMemberExpressionF, Json.asObj, DR.bind_eq, DR.bind_ok, Json.getNat, Json.getStr, Json.getBool, Json.reqField, Json.asArr, Json.asStr, Json.asBool, Json.getOpt, e_start, e_end, e_object, e_property, e_computed]

theorem decodeFunctionExpressionF_extra (fuel : Nat) (fs : List (String × Json))
    (k : String) (v : Json) (h : k ∉ layoutFunctionExpression) :
    decodeFunctionExpressionF fuel (.obj (fs ++ [(k, v)])) = decodeFunctionExpressionF fuel (.obj fs) := by
  have e_start := jlookup_append "start" k v fs (layout_ne h (by decide))
  have e_end := jlookup_append "end" k v fs (layout_ne h (by decide))
  have e_id := jlookup_append "id" k v fs (layout_ne h (by decide))
  have e_params := jlookup_append "params" k v fs (layout_ne h (by decide))
  have e_body := jlookup_append "body" k v fs (layout_ne h (by decide))
  cases fuel with
  | zero => rfl
  | succ f =>
  simp only [decodeFunctionExpressionF, Json.asObj, DR.bind_eq, DR.bind_ok, Json.getNat, Json.getStr, Json.getBool, Json.reqField, Json.asArr, Json.asStr, Json.asBool, Json.getOpt, e_start, e_end, e_id, e_params, e_body]

theorem decodeBlockStatementF_extra (fuel : Nat) (fs : List (String × Json))
    (k : String) (v : Json) (h : k ∉ layoutBlockStatement) :
    decodeBlockStatementF fuel (.obj (fs ++ [(k, v)])) = decodeBlockStatementF fuel (.obj fs) := by
  have e_start := jlookup_append "start" k v fs (layout_ne h (by decide))
  have e_end := jlookup_append "end" k v fs (layout_ne h (by decide))
  have e_body := jlookup_append "body" k v fs (layout_ne h (by decide))
  have e_nonCodeMeta := jlookup_append "nonCodeMeta" k v fs (layout_ne h (by decide))
  cases fuel with
  | zero => rfl
  | succ f =>
  simp only [decodeBlockStatementF, Json.asObj, DR.bind_eq, DR.bind_ok, Json.getNat, Json.getStr, Json.getBool, Json.reqField, Json.asArr, Json.asStr, Json.asBool, Json.getOpt, e_start, e_end, e_body, e_nonCodeMeta]

theorem decodeMemberProperty_extra (fs : List (String × Json))
    (k : String) (v : Json) (h : k ∉ layoutMemberProperty) :
    decodeMemberProperty (.obj (fs ++ [(k, v)])) =
      decodeMemberProperty (.obj fs) := by
  have e_type := jlookup_append "type" k v fs (layout_ne h (by decide))
  simp only [decodeMemberProperty, Json.asObj, DR.bind_eq, DR.bind_ok,
    Json.getStr, Json.reqField, e_type,
    decodeIdentifier_extra fs k v (layout_sub h (by decide)),
    decodeLiteral_extra fs k v (layout_sub h (by decide))]

theorem decodeBodyItemF_extra (fuel : Nat) (fs : List (String × Json))
    (k : String) (v : Json) (h : k ∉ layoutBodyItem) :
    decodeBodyItemF fuel (.obj (fs ++ [(k, v)])) =
      decodeBodyItemF fuel (.obj fs) := by
  have e_type := jlookup_append "type" k v fs (layout_ne h (by decide))
  cases fuel with
  | zero => rfl
  | succ f =>
  simp only [decodeBodyItemF, Json.asObj, DR.bind_eq, DR.bind_ok, Json.getStr,
    Json.reqField, e_type,
    decodeExpressionStatementF_extra f fs k v (layout_sub h (by decide)),
    decodeVariableDeclarationF_extra f fs k v (layout_sub h (by decide)),
    decodeReturnStatementF_extra f fs k v (layout_sub h (by decide))]

theorem decodeValueF_extra (fuel : Nat) (fs : List (String × Json))
    (k : String) (v : Json) (h : k ∉ layoutValue) :
    decodeValueF fuel (.obj (fs ++ [(k, v)])) = decodeValueF fuel (.obj fs) := by
  have e_type := jlookup_append "type" k v fs (layout_ne h (by decide))
  cases fuel with
  | zero => rfl
  | succ f =>
  simp only [decodeValueF, Json.asObj, DR.bind_eq, DR.bind_ok, Json.getStr,
    Json.reqField, e_type,
    decodeLiteral_extra fs k v (layout_sub h (by decide)),
    decodeIdentifier_extra fs k v (layout_sub h (by decide)),
    decodePipeSubstitution_extra fs k v (layout_sub h (by decide)),
    decodeBinaryExpressionF_extra f fs k v (layout_sub h (by decide)),
    decodeFunctionExpressionF_extra f fs k v (layout_sub h (by decide)),
    decodeCallExpressionF_extra f fs k v (layout_sub h (by decide)),
    decodePipeExpressionF_extra f fs k v (layout_sub h (by decide)),
    decodeArrayExpressionF_extra f fs k v (layout_sub h (by decide)),
    decodeObjectExpressionF_extra f fs k v (layout_sub h (by decide)),
    decodeMemberExpressionF_extra f fs k v (layout_sub h (by decide)),
    decodeUnaryExpressionF_extra f fs k v (layout_sub h (by decide))]

theorem decodeBinaryPartF_extra (fuel : Nat) (fs : List (String × Json))
    (k : String) (v : Json) (h : k ∉ layoutBinaryPart) :
    decodeBinaryPartF fuel (.obj (fs ++ [(k, v)])) =
      decodeBinaryPartF fuel (.obj fs) := by
  have e_type := jlookup_append "type" k v fs (layout_ne h (by decide))
  cases fuel with
  | zero => rfl
  | succ f =>
  simp only [decodeBinaryPartF, Json.asObj, DR.bind_eq, DR.bind_ok, Json.getStr,
    Json.reqField, e_type,
    decodeLiteral_extra fs k v (layout_sub h (by decide)),
    decodeIdentifier_extra fs k v (layout_sub h (by decide)),
    decodeBinaryExpressionF_extra f fs k v (layout_sub h (by decide)),
    decodeCallExpressionF_extra f fs k v (layout_sub h (by decide)),
    decodeUnaryExpressionF_extra f fs k v (layout_sub h (by decide))]

theorem decodeMemberObjectF_extra (fuel : Nat) (fs : List (String × Json))
    (k : String) (v : Json) (h : k ∉ layoutMemberObject) :
    decodeMemberObjectF fuel (.obj (fs ++ [(k, v)])) =
      decodeMemberObjectF fuel (.obj fs) := by
  have e_type := jlookup_append "type" k v fs (layout_ne h (by decide))
  cases fuel with
  | zero => rfl
  | succ f =>
  simp only [decodeMemberObjectF, Json.asObj, DR.bind_eq, DR.bind_ok,
    Json.getStr, Json.reqField, e_type,
    decodeIdentifier_extra fs k v (layout_sub h (by decide)),
    decodeMemberExpressionF_extra f fs k v (layout_sub h (by decide))]

/-- C10: decoding ignores unrecognized fields for every node type — for
each of the 25 decoders of the model (Program, CallExpression, Identifier,
Literal, NoneCodeNode, PipeSubstitution, NoneCodeMeta, MemberProperty,
ExpressionStatement, VariableDeclaration, VariableDeclarator,
ReturnStatement, BinaryExpression, UnaryExpression, PipeExpression,
ArrayExpression, ObjectExpression, ObjectProperty, MemberExpression,
FunctionExpression, BlockStatement, BodyItem, Value, BinaryPart,
MemberObject), appending an extra field whose name is outside the node's
documented layout to a serialized object leaves the decode result
unchanged; concretely, the Scenario A document extended with a `"version"`
field decodes to the same tree. -/
theorem c10_theorem :
    (∀ fuel fs k v,
        k ∉ (["start", "end", "body", "nonCodeMeta"] : List String) →
        decodeProgramF fuel (.obj (fs ++ [(k, v)])) =
          decodeProgramF fuel (.obj fs)) ∧
    (∀ fuel fs k v,
        k ∉ (["start", "end", "callee", "arguments", "optional"] : List String) →
        decodeCallExpressionF fuel (.obj (fs ++ [(k, v)])) =
          decodeCallExpressionF fuel (.obj fs)) ∧
    (∀ fs k v, k ∉ layoutIdentifier →
        decodeIdentifier (.obj (fs ++ [(k, v)])) = decodeIdentifier (.obj fs)) ∧
    (∀ fs k v, k ∉ layoutLiteral →
        decodeLiteral (.obj (fs ++ [(k, v)])) = decodeLiteral (.obj fs)) ∧
    (∀ fs k v, k ∉ layoutNoneCodeNode →
        decodeNoneCodeNode (.obj (fs ++ [(k, v)])) = decodeNoneCodeNode (.obj fs)) ∧
    (∀ fs k v, k ∉ layoutPipeSubstitution →
        decodePipeSubstitution (.obj (fs ++ [(k, v)])) = decodePipeSubstitution (.obj fs)) ∧
    (∀ fs k v, k ∉ layoutNoneCodeMeta →
        decodeNoneCodeMeta (.obj (fs ++ [(k, v)])) = decodeNoneCodeMeta (.obj fs)) ∧
    (∀ fs k v, k ∉ layoutMemberProperty →
        decodeMemberProperty (.obj (fs ++ [(k, v)])) = decodeMemberProperty (.obj fs)) ∧
    (∀ fuel fs k v, k ∉ layoutExpressionStatement →
        decodeExpressionStatementF fuel (.obj (fs ++ [(k, v)])) = decodeExpressionStatementF fuel (.obj fs)) ∧
    (∀ fuel fs k v, k ∉ layoutVariableDeclaration →
        decodeVariableDeclarationF fuel (.obj (fs ++ [(k, v)])) = decodeVariableDeclarationF fuel (.obj fs)) ∧
    (∀ fuel fs k v, k ∉ layoutVariableDeclarator →
        decodeVariableDeclaratorF fuel (.obj (fs ++ [(k, v)])) = decodeVariableDeclaratorF fuel (.obj fs)) ∧
    (∀ fuel fs k v, k ∉ layoutReturnStatement →
        decodeReturnStatementF fuel (.obj (fs ++ [(k, v)])) = decodeReturnStatementF fuel (.obj fs)) ∧
    (∀ fuel fs k v, k ∉ layoutBinaryExpression →
        decodeBinaryExpressionF fuel (.obj (fs ++ [(k, v)])) = decodeBinaryExpressionF fuel (.obj fs)) ∧
    (∀ fuel fs k v, k ∉ layoutUnaryExpression →
        decodeUnaryExpressionF fuel (.obj (fs ++ [(k, v)])) = decodeUnaryExpressionF fuel (.obj fs)) ∧
    (∀ fuel fs k v, k ∉ layoutPipeExpression →
        decodePipeExpressionF fuel (.obj (fs ++ [(k, v)])) = decodePipeExpressionF fuel (.obj fs)) ∧
    (∀ fuel fs k v, k ∉ layoutArrayExpression →
        decodeArrayExpressionF fuel (.obj (fs ++ [(k, v)])) = decodeArrayExpressionF fuel (.obj fs)) ∧
    (∀ fuel fs k v, k ∉ layoutObjectExpression →
        decodeObjectExpressionF fuel (.obj (fs ++ [(k, v)])) = decodeObjectExpressionF fuel (.obj fs)) ∧
    (∀ fuel fs k v, k ∉ layoutObjectProperty →
        decodeObjectPropertyF fuel (.obj (fs ++ [(k, v)])) = decodeObjectPropertyF fuel (.obj fs)) ∧
    (∀ fuel fs k v, k ∉ layoutMemberExpression →
        decodeMemberExpressionF fuel (.obj (fs ++ [(k, v)])) = decodeMemberExpressionF fuel (.obj fs)) ∧
    (∀ fuel fs k v, k ∉ layoutFunctionExpression →
        decodeFunctionExpressionF fuel (.obj (fs ++ [(k, v)])) = decodeFunctionExpressionF fuel (.obj fs)) ∧
    (∀ fuel fs k v, k ∉ layoutBlockStatement →
        decodeBlockStatementF fuel (.obj (fs ++ [(k, v)])) = decodeBlockStatementF fuel (.obj fs)) ∧
    (∀ fuel fs k v, k ∉ layoutBodyItem →
        decodeBodyItemF fuel (.obj (fs ++ [(k, v)])) = decodeBodyItemF fuel (.obj fs)) ∧
    (∀ fuel fs k v, k ∉ layoutValue →
        decodeValueF fuel (.obj (fs ++ [(k, v)])) = decodeValueF fuel (.obj fs)) ∧
    (∀ fuel fs k v, k ∉ layoutBinaryPart →
        decodeBinaryPartF fuel (.obj (fs ++ [(k, v)])) = decodeBinaryPartF fuel (.obj fs)) ∧
    (∀ fuel fs k v, k ∉ layoutMemberObject →
        decodeMemberObjectF fuel (.obj (fs ++ [(k, v)])) = decodeMemberObjectF fuel (.obj fs)) ∧
    decodeProgram scenarioAExtra = decodeProgram scenarioA :=
  ⟨decodeProgramF_extra, decodeCallExpressionF_extra, decodeIdentifier_extra, decodeLiteral_extra, decodeNoneCodeNode_extra, decodePipeSubstitution_extra, decodeNoneCodeMeta_extra, decodeMemberProperty_extra, decodeExpressionStatementF_extra, decodeVariableDeclarationF_extra, decodeVariableDeclaratorF_extra, decodeReturnStatementF_extra, decodeBinaryExpressionF_extra, decodeUnaryExpressionF_extra, decodePipeExpressionF_extra, decodeArrayExpressionF_extra, decodeObjectExpressionF_extra, decodeObjectPropertyF_extra, decodeMemberExpressionF_extra, decodeFunctionExpressionF_extra, decodeBlockStatementF_extra, decodeBodyItemF_extra, decodeValueF_extra, decodeBinaryPartF_extra, decodeMemberObjectF_extra, rfl⟩

/-- C10, witness: `c10_theorem` applied to the Scenario A field list with an
extra `"version"` field. -/
theorem c10_witness :
    decodeProgramF 9
        (.obj ([("start", Json.num 0), ("end", Json.num 5),
                ("body", Json.arr []),
                ("nonCodeMeta", Json.obj [("noneCodeNodes", Json.obj []),
                                          ("start", Json.null)])] ++
               [("version", Json.str "1.0")])) =
      decodeProgramF 9
        (.obj [("start", Json.num 0), ("end", Json.num 5),
               ("body", Json.arr []),
               ("nonCodeMeta", Json.obj [("noneCodeNodes", Json.obj []),
                                         ("start", Json.null)])]) :=
  c10_theorem.1 9 _ "version" (.str "1.0") (by decide)
